import Mathlib

/-!
Shallow embedding of the `shellish` declarative command-line argument parser
(`src/shellish.ts`) together with proofs about its registration, token-walk,
arity-resolution and post-parse behaviour.

Modelling conventions:
* JS strings are Lean `String`s; the JS primitives `startsWith`, `substring`
  and `length` are modelled on the character sequence (`String.data`), which
  matches their behaviour on the tokens the parser manipulates.
* JS `number` fields holding counts/indices are `Int` (the source performs
  arithmetic that can go negative, e.g. `nextIndex += argumentDef.args`).
* The two instance `Map`s (`arguments`, `shortNameMap`) are association lists
  in insertion order, which is exactly the iteration order of a JS `Map`.
* A `Record<string, any>` (`parsedArguments`) is an association list over the
  `Value` type below; `Value.undef` models the JS `undefined` value, so that
  key membership (`longName in parsedArguments`) is `(List.lookup _).isSome`.
* A consumer callback is modelled as a function from the collected value
  tokens and the shared `ParsedContext` (exactly what the source passes at
  line 233, after `parsedArguments` has been updated) to
  `Except String Unit`; `.error m` models the callback throwing an `Error`
  whose `.message` is `m`.  Callbacks may therefore observe every context
  field, including `allArgs` and `remainingArgs`.
* `throw` in `addArgument` is modelled by returning the unchanged instance
  paired with `some message`, mirroring the fact that the source throws
  before performing any mutation.
* The `while` loop of `parse` is modelled with explicit fuel (`parseLoop`);
  `parse` supplies `args.length + 1` units, which is proved sufficient for
  the arities the spec admits (`≥ -1`), and the fuel-indexed form makes the
  (non-)termination of the source loop expressible.
-/

namespace CLI

/-- JS `s.startsWith(p)` on the character sequence. -/
def strStartsWith (s p : String) : Bool :=
  p.data.isPrefixOf s.data

/-- JS `s.substring(n)` (drop the first `n` characters). -/
def strDrop (s : String) (n : Nat) : String :=
  ⟨s.data.drop n⟩

/-- JS `s.length` on the character sequence. -/
def strLen (s : String) : Nat :=
  s.data.length

/-- An ASCII single-quote character, used in the duplicate-name messages. -/
def sq : String :=
  String.singleton (Char.ofNat 39)

/-- JS `args[i]` for an `Int` index: `undefined` (here `none`) outside
`[0, args.length)`. -/
def getTok (args : List String) (i : Int) : Option String :=
  if 0 ≤ i then args[i.toNat]? else none

/-- The values the parser stores into `parsedArguments`; `undef` is the JS
`undefined` (only producible through `argValues[0]` on an empty collection,
which is unreachable on the paths the parser takes). -/
inductive Value where
  | bool (b : Bool)
  | str (s : String)
  | strs (l : List String)
  | undef
deriving DecidableEq, Repr

/-- `ShellishOptions` from `src/types.ts`. -/
structure ShellishOptions where
  name : String
  description : String
  version : Option String := none
  author : Option String := none
  helpText : Option String := none

/-- The mutable per-parse context (`ParsedContext` in `src/types.ts`). -/
structure ParsedContext where
  command : String
  remainingArgs : List String
  allArgs : List String
  parsedArguments : List (String × Value)
deriving DecidableEq

/-- A registered argument definition (`ParsedArgument` in `src/types.ts`).
The callback receives the collected value tokens and the shared context,
exactly as at src/shellish.ts line 233. -/
structure ParsedArgument where
  longName : String
  shortName : Option String
  description : String
  args : Int
  required : Bool
  defaultValue : Option Value
  callback : List String → ParsedContext → Except String Unit

/-- `ArgumentOptions` from `src/types.ts`: the optional fields default to
`args = 0` and `required = false` inside `addArgument`. -/
structure ArgumentOptions where
  longName : String
  shortName : Option String
  description : String
  args : Option Int
  required : Option Bool
  defaultValue : Option Value
  callback : List String → ParsedContext → Except String Unit

/-- The result object of `parse` (`ParseResult` in `src/types.ts`); `parse`
never sets `helpRequested`. -/
structure ParseResult where
  success : Bool
  error : Option String
  helpRequested : Option Bool := none
deriving DecidableEq, Repr

/-- The result object of `processArgument`. -/
structure ProcResult where
  success : Bool
  nextIndex : Int
  error : Option String
deriving DecidableEq, Repr

/-- The `Shellish` class state: options plus the two insertion-ordered maps. -/
structure Shellish where
  options : ShellishOptions
  arguments : List (String × ParsedArgument)
  shortNameMap : List (String × String)

/-- JS object / `Map` assignment on an association list: replace the value at
an existing key in place, otherwise append the new binding. -/
def setValue : List (String × Value) → String → Value → List (String × Value)
  | [], k, v => [(k, v)]
  | (k', v') :: rest, k, v =>
    if k' = k then (k, v) :: rest else (k', v') :: setValue rest k v

/-- `addArgument` (src/shellish.ts lines 49-75).  Returns the new instance
state paired with `none`, or — when the source throws — the *unchanged*
state paired with `some message` (the source throws before any mutation).
The truthiness test `if (argOptions.shortName)` skips both an absent and an
empty short name. -/
def addArgument (sh : Shellish) (o : ArgumentOptions) : Shellish × Option String :=
  let parsedArg : ParsedArgument :=
    { longName := o.longName
      shortName := o.shortName
      description := o.description
      args := o.args.getD 0
      required := o.required.getD false
      defaultValue := o.defaultValue
      callback := o.callback }
  if (List.lookup o.longName sh.arguments).isSome then
    (sh, some ("Argument with long name " ++ sq ++ o.longName ++ sq ++ " already exists"))
  else
    match o.shortName with
    | some s =>
      if s ≠ "" then
        if (List.lookup s sh.shortNameMap).isSome then
          (sh, some ("Argument with short name " ++ sq ++ s ++ sq ++ " already exists"))
        else
          ({ sh with
              shortNameMap := sh.shortNameMap ++ [(s, o.longName)]
              arguments := sh.arguments ++ [(o.longName, parsedArg)] }, none)
      else
        ({ sh with arguments := sh.arguments ++ [(o.longName, parsedArg)] }, none)
    | none =>
      ({ sh with arguments := sh.arguments ++ [(o.longName, parsedArg)] }, none)

/-- The unbounded-arity collection loop (src/shellish.ts lines 195-203):
`while (nextIndex + j < args.length) { const nextArg = args[nextIndex + j];
if (!nextArg || nextArg.startsWith('-')) break; argValues.push(nextArg); j++ }`.
The counter `k` is fuel; the loop body runs at most `args.length + 1` times
(each iteration either stops or increases `j`, and `nextIndex + j` is bounded
by `args.length`). -/
def collectUnboundedAux (args : List String) (nextIndex : Int) (j : Nat) : Nat → List String
  | 0 => []
  | k + 1 =>
    if nextIndex + j < (args.length : Int) then
      match getTok args (nextIndex + j) with
      | none => []
      | some t =>
        if t = "" ∨ strStartsWith t "-" then []
        else t :: collectUnboundedAux args nextIndex (j + 1) k
    else []

/-- All values consumed by the unbounded-arity branch starting at `nextIndex`. -/
def collectUnbounded (args : List String) (nextIndex : Int) : List String :=
  collectUnboundedAux args nextIndex 0 (args.length + 1)

/-- The fixed-arity collection loop (src/shellish.ts lines 207-226):
`for (let j = 0; j < argumentDef.args; j++)` with its two early-error
returns.  `count` is the number of iterations still to run (the loop runs
`need.toNat` times in total), `j` the number of values already collected.
An error carries the `nextIndex` the source would return (`nextIndex + j`)
and the error message. -/
def collectFixedAux (longName : String) (need : Int) (args : List String)
    (nextIndex : Int) (j : Nat) : Nat → Except (Int × String) (List String)
  | 0 => .ok []
  | count + 1 =>
    if (args.length : Int) ≤ nextIndex + j then
      .error (nextIndex + j,
        s!"Argument --{longName} requires {need} value(s), but only {j} provided")
    else
      match getTok args (nextIndex + j) with
      | none =>
        .error (nextIndex + j,
          s!"Argument --{longName} requires {need} value(s), but found end of arguments")
      | some t =>
        if t = "" then
          .error (nextIndex + j,
            s!"Argument --{longName} requires {need} value(s), but found end of arguments")
        else if strStartsWith t "-" then
          .error (nextIndex + j,
            s!"Argument --{longName} requires {need} value(s), but found flag {t}")
        else
          match collectFixedAux longName need args nextIndex (j + 1) count with
          | .ok vs => .ok (t :: vs)
          | .error e => .error e

/-- Runs the fixed-arity loop from `j = 0`; a negative `need` runs zero
iterations, exactly as `for (j = 0; j < need; j++)` does. -/
def collectFixed (longName : String) (need : Int) (args : List String)
    (nextIndex : Int) : Except (Int × String) (List String) :=
  collectFixedAux longName need args nextIndex 0 need.toNat

/-- The three-way value normalization of src/shellish.ts line 229:
`args === 0 ? true : (args === 1 ? argValues[0] : argValues)`. -/
def normalize (arity : Int) (vals : List String) : Value :=
  if arity = 0 then .bool true
  else if arity = 1 then
    match vals with
    | v :: _ => .str v
    | [] => .undef
  else .strs vals

/-- A callback-invocation event: the flag's long name and the collected
value tokens it was called with. -/
abbrev Event := String × List String

/-- The value-collection phase of `processArgument` (src/shellish.ts lines
189-228): on success, the collected values together with the `nextIndex`
the source computes (`nextIndex + j` for `-1`, `nextIndex + args` for the
fixed branch). -/
def procCollect (d : ParsedArgument) (args : List String) (nextIndex : Int) :
    Except (Int × String) (List String × Int) :=
  if d.args = -1 then
    .ok (collectUnbounded args nextIndex, nextIndex + (collectUnbounded args nextIndex).length)
  else
    match collectFixed d.longName d.args args nextIndex with
    | .error e => .error e
    | .ok vals => .ok (vals, nextIndex + d.args)

/-- The record-and-callback phase of `processArgument` (src/shellish.ts lines
229-242): write the normalized value into `parsedArguments`, then run the
callback inside the `try`, passing it the whole (already updated) context,
as `await argumentDef.callback(argValues, context)` does. -/
def procFinish (d : ParsedArgument) (vals : List String) (nextIndex' : Int)
    (ctx : ParsedContext) : ProcResult × ParsedContext × List Event :=
  let ctx' : ParsedContext :=
    { ctx with parsedArguments := setValue ctx.parsedArguments d.longName (normalize d.args vals) }
  match d.callback vals ctx' with
  | .ok _ =>
    (⟨true, nextIndex', none⟩, ctx', [(d.longName, vals)])
  | .error m =>
    (⟨false, nextIndex', some s!"Error executing callback for --{d.longName}: {m}"⟩,
      ctx', [(d.longName, vals)])

/-- `processArgument` (src/shellish.ts lines 183-243).  Returns the result
object, the context after the call (only `parsedArguments` is ever written),
and the list of callback invocations it performed (empty on a collection
error, a single event otherwise — the callback runs even when it fails). -/
def processArgument (d : ParsedArgument) (args : List String) (currentIndex : Int)
    (ctx : ParsedContext) : ProcResult × ParsedContext × List Event :=
  match procCollect d args (currentIndex + 1) with
  | .error (idx, msg) => (⟨false, idx, some msg⟩, ctx, [])
  | .ok (vals, nextIndex') => procFinish d vals nextIndex' ctx

/-- The per-token classification of the dispatch loop (src/shellish.ts lines
101-148): long form first, then short form, then bare-token skip.  Factoring
it out of the loop lets theorems talk about "the token resolves to
definition `d`" directly; the branch structure is the source's. -/
inductive TokenAction where
  | skip
  | unknown
  | internalErr (longName : String)
  | dispatch (d : ParsedArgument)

/-- Classify one non-empty token exactly as the loop body does. -/
def resolveToken (sh : Shellish) (t : String) : TokenAction :=
  if strStartsWith t "--" then
    match List.lookup (strDrop t 2) sh.arguments with
    | none => .unknown
    | some d => .dispatch d
  else if strStartsWith t "-" ∧ 1 < strLen t then
    match List.lookup (strDrop t 1) sh.shortNameMap with
    | none => .unknown
    | some longName =>
      match List.lookup longName sh.arguments with
      | none => .internalErr longName
      | some d => .dispatch d
  else .skip

/-- The outcome of the token walk (the `while` loop of `parse`), before the
post-parse required/default pass. -/
inductive WalkResult where
  | failed (r : ParseResult) (ctx : ParsedContext) (trace : List Event)
  | completed (ctx : ParsedContext) (trace : List Event)
deriving DecidableEq

/-- The `while (i < args.length)` loop of `parse` (src/shellish.ts lines
92-149), with explicit fuel: `none` means the modelled loop did not finish
within `fuel` iterations.  `trace` accumulates callback invocations. -/
def parseLoop (sh : Shellish) (args : List String) :
    Nat → Int → ParsedContext → List Event → Option WalkResult
  | 0, _, _, _ => none
  | fuel + 1, i, ctx, trace =>
    if i < (args.length : Int) then
      match getTok args i with
      | none => parseLoop sh args fuel (i + 1) ctx trace
      | some arg =>
        if arg = "" then parseLoop sh args fuel (i + 1) ctx trace
        else
          match resolveToken sh arg with
          | .skip => parseLoop sh args fuel (i + 1) ctx trace
          | .unknown =>
            some (.failed ⟨false, some ("Unknown argument: " ++ arg), none⟩ ctx trace)
          | .internalErr l =>
            some (.failed
              ⟨false, some ("Internal error: argument definition not found for " ++ l), none⟩
              ctx trace)
          | .dispatch d =>
            match processArgument d args i ctx with
            | (r, ctx', evs) =>
              if r.success then parseLoop sh args fuel r.nextIndex ctx' (trace ++ evs)
              else some (.failed ⟨false, r.error, none⟩ ctx' (trace ++ evs))
    else some (.completed ctx trace)

/-- The post-parse required/default pass (src/shellish.ts lines 151-163),
iterating the registry in insertion order. -/
def checkRequired : List (String × ParsedArgument) → List (String × Value) →
    Except String (List (String × Value))
  | [], pa => .ok pa
  | (longName, d) :: rest, pa =>
    if d.required ∧ (List.lookup longName pa).isNone then
      match d.defaultValue with
      | some v => checkRequired rest (setValue pa longName v)
      | none => .error s!"Required argument --{longName} is missing"
    else checkRequired rest pa

/-- The fresh context `parse` builds (src/shellish.ts lines 84-90). -/
def initCtx (sh : Shellish) (args : List String) : ParsedContext :=
  { command := sh.options.name
    remainingArgs := args
    allArgs := args
    parsedArguments := [] }

/-- `parse` (src/shellish.ts lines 82-173): run the token walk, then the
required/default pass.  The observable outcome is the returned `ParseResult`
together with the final `parsedArguments` and the callback-invocation trace.
`args.length + 1` units of fuel are supplied; `none` means the source loop
would not have terminated within that bound (possible only for a registered
arity `< -1`, see the termination theorems).  The source's outer `catch` is
unreachable: the only user code that can throw runs inside `processArgument`'s
own `try`. -/
def parse (sh : Shellish) (args : List String) :
    Option (ParseResult × List (String × Value) × List Event) :=
  match parseLoop sh args (args.length + 1) 0 (initCtx sh args) [] with
  | none => none
  | some (.failed r ctx trace) => some (r, ctx.parsedArguments, trace)
  | some (.completed ctx trace) =>
    match checkRequired sh.arguments ctx.parsedArguments with
    | .ok pa' => some (⟨true, none, none⟩, pa', trace)
    | .error e => some (⟨false, some e, none⟩, ctx.parsedArguments, trace)

/-- `parse` terminates (the source loop returns) on the given input. -/
def ParseTerminates (sh : Shellish) (args : List String) : Prop :=
  ∃ fuel, (parseLoop sh args fuel 0 (initCtx sh args) []).isSome

/-!
## Specification-side vocabulary

The definitions below are *not* translations of source code; they are the
clean vocabulary the theorems compare the source translation against
(value-token predicate, number of available value tokens, the expected
shortfall message, observable projections of a walk outcome).
-/

/-- A token the arity resolver accepts as a value: present (non-empty) and
not dash-prefixed. -/
def isValueTok (t : String) : Bool :=
  !(t == "" || strStartsWith t "-")

/-- How many consecutive value tokens are available from position `n`. -/
def avail (args : List String) (n : Nat) : Nat :=
  ((args.drop n).takeWhile isValueTok).length

/-- The error message the fixed-arity resolver produces when it falls short
at (integer) position `p` having already collected `provided` values:
out-of-range reports the count collected, an in-range empty token reports
`end of arguments`, an in-range dash-prefixed token reports that token. -/
def shortfallMsg (longName : String) (need : Int) (args : List String)
    (p : Int) (provided : Nat) : String :=
  if (args.length : Int) ≤ p then
    s!"Argument --{longName} requires {need} value(s), but only {provided} provided"
  else
    match getTok args p with
    | some t =>
      if t = "" then s!"Argument --{longName} requires {need} value(s), but found end of arguments"
      else s!"Argument --{longName} requires {need} value(s), but found flag {t}"
    | none => s!"Argument --{longName} requires {need} value(s), but found end of arguments"

/-- The context a walk outcome carries. -/
def WalkResult.ctx : WalkResult → ParsedContext
  | .failed _ c _ => c
  | .completed c _ => c

/-- The callback-invocation trace a walk outcome carries. -/
def WalkResult.trace : WalkResult → List Event
  | .failed _ _ t => t
  | .completed _ t => t

/-- The observable part of a walk outcome: whether (and how) it failed, the
parsed-argument map, and the callback trace.  Everything `parse` returns is
a function of this projection. -/
def obs : Option WalkResult → Option (Option ParseResult × List (String × Value) × List Event)
  | none => none
  | some (.failed r c t) => some (some r, c.parsedArguments, t)
  | some (.completed c t) => some (none, c.parsedArguments, t)

/-- A registry entry the post-parse pass cannot repair: required, absent
from `pa`, and has no default. -/
def fatalPred (pa : List (String × Value)) (p : String × ParsedArgument) : Bool :=
  p.2.required && (List.lookup p.1 pa).isNone && p.2.defaultValue.isNone

/-- The first registry entry (in insertion order) that is required, absent
from `pa`, and has no default — the one whose long name the post-parse pass
reports. -/
def firstFatal (reg : List (String × ParsedArgument)) (pa : List (String × Value)) :
    Option String :=
  (reg.find? (fatalPred pa)).map (fun p => p.1)

/-!
## Basic lemmas: association-list update, token access
-/

lemma lookup_nil {α : Type} (k : String) : List.lookup k ([] : List (String × α)) = none :=
  rfl

lemma lookup_cons_eq {α : Type} (k : String) (v : α) (l : List (String × α)) :
    List.lookup k ((k, v) :: l) = some v := by
  simp [List.lookup]

lemma lookup_cons_ne {α : Type} (k k' : String) (v : α) (l : List (String × α))
    (h : k ≠ k') : List.lookup k ((k', v) :: l) = List.lookup k l := by
  have hb : (k == k') = false := beq_eq_false_iff_ne.mpr h
  simp [List.lookup, hb]

lemma lookup_setValue_self (pa : List (String × Value)) (k : String) (v : Value) :
    List.lookup k (setValue pa k v) = some v := by
  induction pa with
  | nil => simp [setValue, lookup_cons_eq]
  | cons hd tl ih =>
    obtain ⟨k', v'⟩ := hd
    by_cases h : k' = k
    · subst h
      simp [setValue, lookup_cons_eq]
    · rw [setValue, if_neg h, lookup_cons_ne _ _ _ _ (Ne.symm h)]
      exact ih

lemma lookup_setValue_ne (pa : List (String × Value)) (k k' : String) (v : Value)
    (h : k' ≠ k) : List.lookup k' (setValue pa k v) = List.lookup k' pa := by
  induction pa with
  | nil => simp [setValue, lookup_cons_ne _ _ _ _ h]
  | cons hd tl ih =>
    obtain ⟨k₀, v₀⟩ := hd
    by_cases h₀ : k₀ = k
    · subst h₀
      rw [setValue, if_pos rfl, lookup_cons_ne _ _ _ _ h, lookup_cons_ne _ _ _ _ h]
    · rw [setValue, if_neg h₀]
      by_cases h₁ : k' = k₀
      · subst h₁
        rw [lookup_cons_eq, lookup_cons_eq]
      · rw [lookup_cons_ne _ _ _ _ h₁, lookup_cons_ne _ _ _ _ h₁]
        exact ih

lemma lookup_setValue_isSome (pa : List (String × Value)) (k k' : String) (v : Value)
    (h : (List.lookup k' pa).isSome) : (List.lookup k' (setValue pa k v)).isSome := by
  by_cases hk : k' = k
  · subst hk
    simp [lookup_setValue_self]
  · rwa [lookup_setValue_ne _ _ _ _ hk]

lemma lookup_mem {α : Type} (xs : List (String × α)) (k : String) (v : α)
    (h : List.lookup k xs = some v) : (k, v) ∈ xs := by
  induction xs with
  | nil => exact absurd h (by simp [lookup_nil])
  | cons hd tl ih =>
    obtain ⟨k₀, v₀⟩ := hd
    by_cases h₀ : k = k₀
    · subst h₀
      rw [lookup_cons_eq] at h
      obtain rfl : v₀ = v := by injection h
      exact List.mem_cons_self _ _
    · rw [lookup_cons_ne _ _ _ _ h₀] at h
      exact List.mem_cons_of_mem _ (ih h)

lemma getTok_some_bounds (args : List String) (i : Int) (t : String)
    (h : getTok args i = some t) : 0 ≤ i ∧ i < (args.length : Int) := by
  unfold getTok at h
  by_cases h0 : 0 ≤ i
  · refine ⟨h0, ?_⟩
    rw [if_pos h0] at h
    have hlt : i.toNat < args.length := by
      by_contra hge
      rw [List.getElem?_eq_none (by omega)] at h
      exact Option.noConfusion h
    omega
  · rw [if_neg h0] at h
    exact Option.noConfusion h

lemma getTok_eq_getElem (args : List String) (i : Int) (h : 0 ≤ i)
    (hlt : i.toNat < args.length) :
    getTok args i = some (args[i.toNat]) := by
  simp [getTok, h, List.getElem?_eq_getElem hlt]

lemma isValueTok_false_iff (t : String) :
    isValueTok t = false ↔ (t = "" ∨ strStartsWith t "-" = true) := by
  by_cases he : t = "" <;> by_cases hd : strStartsWith t "-" <;> simp [isValueTok, he, hd]

lemma isValueTok_true_iff (t : String) :
    isValueTok t = true ↔ (¬t = "" ∧ strStartsWith t "-" = false) := by
  by_cases he : t = "" <;> by_cases hd : strStartsWith t "-" <;> simp [isValueTok, he, hd]

lemma avail_pos_lt (args : List String) (p : Nat) (h : 0 < avail args p) :
    p < args.length := by
  by_contra hge
  have : args.drop p = [] := List.drop_eq_nil_of_le (by omega)
  simp [avail, this] at h

lemma avail_eq_zero_of_ge (args : List String) (p : Nat) (h : args.length ≤ p) :
    avail args p = 0 := by
  simp [avail, List.drop_eq_nil_of_le h]

lemma avail_cons_of_lt (args : List String) (p : Nat) (hp : p < args.length) :
    avail args p = if isValueTok args[p] then avail args (p + 1) + 1 else 0 := by
  unfold avail
  rw [List.drop_eq_getElem_cons hp, List.takeWhile_cons]
  by_cases h : isValueTok args[p]
  · simp [h]
  · simp [h]

/-!
## Characterization of the two collection loops
-/

lemma getTok_shift (args : List String) (n : Int) (j : Nat) (hn : 0 ≤ n)
    (hlt : n.toNat + j < args.length) :
    getTok args (n + j) = some (args[n.toNat + j]) := by
  unfold getTok
  rw [if_pos (show (0 : Int) ≤ n + j by omega)]
  rw [show (n + (j : Int)).toNat = n.toNat + j from by omega]
  exact List.getElem?_eq_getElem hlt

lemma collectUnboundedAux_eq (args : List String) (n : Int) (hn : 0 ≤ n) :
    ∀ (k j : Nat), args.length + 1 ≤ k + (n.toNat + j) →
      collectUnboundedAux args n j k = (args.drop (n.toNat + j)).takeWhile isValueTok := by
  intro k
  induction k with
  | zero =>
    intro j hk
    have : args.drop (n.toNat + j) = [] := List.drop_eq_nil_of_le (by omega)
    simp [collectUnboundedAux, this]
  | succ k ih =>
    intro j hk
    rw [collectUnboundedAux]
    by_cases hlt : n.toNat + j < args.length
    · have hcond : n + (j : Int) < (args.length : Int) := by omega
      have hget := getTok_shift args n j hn hlt
      rw [if_pos hcond]
      simp only [hget]
      rw [List.drop_eq_getElem_cons hlt, List.takeWhile_cons]
      by_cases hv : isValueTok args[n.toNat + j]
      · obtain ⟨hne, hnd⟩ := (isValueTok_true_iff _).mp hv
        rw [if_neg (show ¬(args[n.toNat + j] = "" ∨ strStartsWith args[n.toNat + j] "-" = true) by
          simp [hne, hnd]), if_pos hv]
        have := ih (j + 1) (by omega)
        rw [show n.toNat + (j + 1) = n.toNat + j + 1 by omega] at this
        rw [this]
      · have hv' := (isValueTok_false_iff _).mp (Bool.eq_false_iff.mpr hv)
        rw [if_pos hv', if_neg (by simp [hv])]
    · have hcond : ¬(n + (j : Int) < (args.length : Int)) := by omega
      have : args.drop (n.toNat + j) = [] := List.drop_eq_nil_of_le (by omega)
      rw [if_neg hcond, this]
      simp

lemma collectUnbounded_eq (args : List String) (n : Int) (hn : 0 ≤ n) :
    collectUnbounded args n = (args.drop n.toNat).takeWhile isValueTok := by
  have := collectUnboundedAux_eq args n hn (args.length + 1) 0 (by omega)
  simpa [collectUnbounded] using this

lemma collectFixedAux_ok_length (l : String) (need : Int) (args : List String) (n : Int) :
    ∀ (count j : Nat) (vs : List String),
      collectFixedAux l need args n j count = .ok vs → vs.length = count := by
  intro count
  induction count with
  | zero =>
    intro j vs h
    simp [collectFixedAux] at h
    simp [← h]
  | succ count ih =>
    intro j vs h
    rw [collectFixedAux] at h
    split at h
    · simp at h
    · split at h
      · simp at h
      · split at h
        · simp at h
        · split at h
          · simp at h
          · split at h
            · rename_i vs' hrec
              injection h with h'
              rw [← h']
              simp [ih (j + 1) vs' hrec]
            · simp at h

lemma collectFixedAux_ok_of_le (l : String) (need : Int) (args : List String) (n : Int)
    (hn : 0 ≤ n) :
    ∀ (count j : Nat), count ≤ avail args (n.toNat + j) →
      collectFixedAux l need args n j count =
        .ok (((args.drop (n.toNat + j)).takeWhile isValueTok).take count) := by
  intro count
  induction count with
  | zero => intro j _; simp [collectFixedAux]
  | succ count ih =>
    intro j hc
    have hpos : 0 < avail args (n.toNat + j) := by omega
    have hlt : n.toNat + j < args.length := avail_pos_lt args _ hpos
    have hv : isValueTok args[n.toNat + j] = true := by
      by_contra hvf
      rw [avail_cons_of_lt args _ hlt, if_neg hvf] at hpos
      omega
    obtain ⟨hne, hnd⟩ := (isValueTok_true_iff _).mp hv
    rw [collectFixedAux]
    have h1 : ¬((args.length : Int) ≤ n + j) := by omega
    have hget := getTok_shift args n j hn hlt
    rw [if_neg h1]
    simp only [hget]
    rw [if_neg hne, if_neg (show ¬(strStartsWith args[n.toNat + j] "-" = true) by simp [hnd])]
    have hrec := ih (j + 1) (by
      rw [avail_cons_of_lt args _ hlt, if_pos hv] at hc
      rw [show n.toNat + (j + 1) = n.toNat + j + 1 by omega]
      omega)
    rw [show n.toNat + (j + 1) = n.toNat + j + 1 by omega] at hrec
    simp only [hrec]
    rw [List.drop_eq_getElem_cons hlt, List.takeWhile_cons, if_pos hv]
    simp

lemma collectFixedAux_err_of_lt (l : String) (need : Int) (args : List String) (n : Int)
    (hn : 0 ≤ n) :
    ∀ (count j : Nat), avail args (n.toNat + j) < count →
      collectFixedAux l need args n j count =
        .error (n + j + (avail args (n.toNat + j) : Int),
          shortfallMsg l need args (n + j + (avail args (n.toNat + j) : Int))
            (j + avail args (n.toNat + j))) := by
  intro count
  induction count with
  | zero => intro j hc; omega
  | succ count ih =>
    intro j hc
    rw [collectFixedAux]
    by_cases hge : args.length ≤ n.toNat + j
    · have ha : avail args (n.toNat + j) = 0 := avail_eq_zero_of_ge args _ hge
      have h1 : (args.length : Int) ≤ n + j := by omega
      rw [if_pos h1, ha]
      rw [shortfallMsg, if_pos (show (args.length : Int) ≤ n + (j : Int) + ((0 : Nat) : Int) by
        push_cast; omega)]
      norm_num
    · have hlt : n.toNat + j < args.length := by omega
      have h1 : ¬((args.length : Int) ≤ n + j) := by omega
      have hget := getTok_shift args n j hn hlt
      rw [if_neg h1]
      simp only [hget]
      by_cases hv : isValueTok args[n.toNat + j] = true
      · obtain ⟨hne, hnd⟩ := (isValueTok_true_iff _).mp hv
        have hrw : avail args (n.toNat + j) = avail args (n.toNat + j + 1) + 1 := by
          rw [avail_cons_of_lt args _ hlt, if_pos hv]
        rw [if_neg hne, if_neg (show ¬(strStartsWith args[n.toNat + j] "-" = true) by simp [hnd])]
        have hrec := ih (j + 1) (by
          rw [show n.toNat + (j + 1) = n.toNat + j + 1 by omega]
          omega)
        rw [show n.toNat + (j + 1) = n.toNat + j + 1 by omega] at hrec
        simp only [hrec, hrw]
        have e1 : n + ((j : Nat) + 1 : Nat) + (avail args (n.toNat + j + 1) : Int) =
            n + (j : Int) + ((avail args (n.toNat + j + 1) + 1 : Nat) : Int) := by
          push_cast; ring
        have e2 : (j + 1) + avail args (n.toNat + j + 1) =
            j + (avail args (n.toNat + j + 1) + 1) := by omega
        rw [e1, e2]
      · have hvf : isValueTok args[n.toNat + j] = false := Bool.eq_false_iff.mpr hv
        have hv' := (isValueTok_false_iff _).mp hvf
        have ha : avail args (n.toNat + j) = 0 := by
          rw [avail_cons_of_lt args _ hlt, if_neg hv]
        rw [ha]
        rw [shortfallMsg,
          if_neg (show ¬((args.length : Int) ≤ n + (j : Int) + ((0 : Nat) : Int)) by
            push_cast; omega)]
        rw [show n + (j : Int) + ((0 : Nat) : Int) = n + (j : Int) by push_cast; ring]
        simp only [hget]
        rcases hv' with he | hd
        · rw [if_pos he, if_pos he]
        · have hne : ¬(args[n.toNat + j] = "") := by
            intro he
            rw [he] at hd
            simp [strStartsWith, List.isPrefixOf] at hd
          rw [if_neg hne, if_pos hd, if_neg hne]

/-!
## Characterization of the collection phase of `processArgument`
-/

lemma normalize_neg_one (vals : List String) : normalize (-1) vals = .strs vals := by
  norm_num [normalize]

lemma procCollect_unbounded (d : ParsedArgument) (args : List String) (n : Int)
    (h : d.args = -1) (hn : 0 ≤ n) :
    procCollect d args n = .ok ((args.drop n.toNat).takeWhile isValueTok,
      n + ((args.drop n.toNat).takeWhile isValueTok).length) := by
  rw [procCollect, if_pos h, collectUnbounded_eq args n hn]

lemma procCollect_fixed_ok (d : ParsedArgument) (args : List String) (n : Int)
    (hne : d.args ≠ -1) (hn : 0 ≤ n)
    (hav : d.args.toNat ≤ avail args n.toNat) :
    procCollect d args n = .ok ((((args.drop n.toNat).takeWhile isValueTok).take d.args.toNat),
      n + d.args) := by
  rw [procCollect, if_neg hne, collectFixed]
  have h := collectFixedAux_ok_of_le d.longName d.args args n hn d.args.toNat 0
    (by simpa using hav)
  rw [show n.toNat + 0 = n.toNat by omega] at h
  simp only [h]

lemma procCollect_fixed_err (d : ParsedArgument) (args : List String) (n : Int)
    (hne : d.args ≠ -1) (hn : 0 ≤ n)
    (hav : avail args n.toNat < d.args.toNat) :
    procCollect d args n = .error (n + (avail args n.toNat : Int),
      shortfallMsg d.longName d.args args (n + (avail args n.toNat : Int))
        (avail args n.toNat)) := by
  rw [procCollect, if_neg hne, collectFixed]
  have h := collectFixedAux_err_of_lt d.longName d.args args n hn d.args.toNat 0
    (by simpa using hav)
  rw [show n.toNat + 0 = n.toNat by omega] at h
  simp only [h]
  norm_num

/-!
## Stepping lemmas for the dispatch loop
-/

lemma parseLoop_completed (sh : Shellish) (args : List String) (fuel : Nat) (i : Int)
    (ctx : ParsedContext) (tr : List Event) (h : ¬ i < (args.length : Int)) :
    parseLoop sh args (fuel + 1) i ctx tr = some (.completed ctx tr) := by
  rw [parseLoop, if_neg h]

lemma parseLoop_skip_none (sh : Shellish) (args : List String) (fuel : Nat) (i : Int)
    (ctx : ParsedContext) (tr : List Event) (h : i < (args.length : Int))
    (ht : getTok args i = none) :
    parseLoop sh args (fuel + 1) i ctx tr = parseLoop sh args fuel (i + 1) ctx tr := by
  rw [parseLoop, if_pos h]
  simp only [ht]

lemma parseLoop_skip_empty (sh : Shellish) (args : List String) (fuel : Nat) (i : Int)
    (ctx : ParsedContext) (tr : List Event) (h : i < (args.length : Int))
    (ht : getTok args i = some "") :
    parseLoop sh args (fuel + 1) i ctx tr = parseLoop sh args fuel (i + 1) ctx tr := by
  rw [parseLoop, if_pos h]
  simp only [ht]
  simp

lemma parseLoop_skip_bare (sh : Shellish) (args : List String) (fuel : Nat) (i : Int)
    (ctx : ParsedContext) (tr : List Event) (t : String) (h : i < (args.length : Int))
    (ht : getTok args i = some t) (hne : t ≠ "") (hres : resolveToken sh t = .skip) :
    parseLoop sh args (fuel + 1) i ctx tr = parseLoop sh args fuel (i + 1) ctx tr := by
  rw [parseLoop, if_pos h]
  simp only [ht]
  rw [if_neg hne]
  simp only [hres]

lemma parseLoop_unknown (sh : Shellish) (args : List String) (fuel : Nat) (i : Int)
    (ctx : ParsedContext) (tr : List Event) (t : String)
    (ht : getTok args i = some t) (hne : t ≠ "") (hres : resolveToken sh t = .unknown) :
    parseLoop sh args (fuel + 1) i ctx tr =
      some (.failed ⟨false, some ("Unknown argument: " ++ t), none⟩ ctx tr) := by
  have hb := getTok_some_bounds args i t ht
  rw [parseLoop, if_pos hb.2]
  simp only [ht]
  rw [if_neg hne]
  simp only [hres]

lemma parseLoop_dispatch (sh : Shellish) (args : List String) (fuel : Nat) (i : Int)
    (ctx : ParsedContext) (tr : List Event) (t : String) (d : ParsedArgument)
    (ht : getTok args i = some t) (hne : t ≠ "") (hres : resolveToken sh t = .dispatch d) :
    parseLoop sh args (fuel + 1) i ctx tr =
      (match processArgument d args i ctx with
       | (r, ctx', evs) =>
         if r.success then parseLoop sh args fuel r.nextIndex ctx' (tr ++ evs)
         else some (.failed ⟨false, r.error, none⟩ ctx' (tr ++ evs))) := by
  have hb := getTok_some_bounds args i t ht
  rw [parseLoop, if_pos hb.2]
  simp only [ht]
  rw [if_neg hne]
  simp only [hres]

lemma procFinish_parts (d : ParsedArgument) (vals : List String) (n' : Int)
    (ctx : ParsedContext) :
    (procFinish d vals n' ctx).2.2 = [(d.longName, vals)] ∧
    (procFinish d vals n' ctx).1.nextIndex = n' ∧
    (procFinish d vals n' ctx).2.1.parsedArguments =
      setValue ctx.parsedArguments d.longName (normalize d.args vals) := by
  unfold procFinish
  cases hcb : d.callback vals
      { ctx with parsedArguments := setValue ctx.parsedArguments d.longName (normalize d.args vals) } <;>
    simp [hcb]

lemma processArgument_trace_parts (d : ParsedArgument) (args : List String) (i : Int)
    (ctx : ParsedContext) (vals : List String)
    (h : (processArgument d args i ctx).2.2 = [(d.longName, vals)]) :
    (processArgument d args i ctx).2.1.parsedArguments =
      setValue ctx.parsedArguments d.longName (normalize d.args vals) ∧
    (d.args ≠ -1 → vals.length = d.args.toNat) := by
  rw [processArgument] at h ⊢
  cases hc : procCollect d args (i + 1) with
  | error e =>
    obtain ⟨idx, msg⟩ := e
    simp only [hc] at h
    simp at h
  | ok p =>
    obtain ⟨vs, n'⟩ := p
    simp only [hc] at h ⊢
    have hparts := procFinish_parts d vs n' ctx
    rw [hparts.1] at h
    obtain rfl : vs = vals := by
      have := List.cons.inj h
      exact congrArg Prod.snd this.1
    refine ⟨hparts.2.2, ?_⟩
    intro hne
    rw [procCollect, if_neg hne] at hc
    cases hcf : collectFixed d.longName d.args args (i + 1) with
    | error e => rw [hcf] at hc; exact absurd hc (by simp)
    | ok vs2 =>
      rw [hcf] at hc
      obtain hveq : vs2 = vs := by
        have h2 : Except.ok (ε := Int × String) (vs2, (i + 1) + d.args) = .ok (vs, n') := hc
        injection h2 with h'
        exact congrArg Prod.fst h'
      rw [← hveq]
      exact collectFixedAux_ok_length d.longName d.args args (i + 1) d.args.toNat 0 vs2 hcf

/-!
## Concrete registry used by the witnesses (mirrors the spec's examples)
-/

/-- A callback that succeeds and does nothing. -/
def cbOk : List String → ParsedContext → Except String Unit := fun _ _ => .ok ()

def optsW : ShellishOptions :=
  { name := "test-cli", description := "A test CLI application" }

def verboseDef : ParsedArgument :=
  ⟨"verbose", some "v", "Enable verbose mode", 0, false, none, cbOk⟩

def excludeDef : ParsedArgument :=
  ⟨"exclude", none, "Exclude items", -1, false, none, cbOk⟩

def copyDef : ParsedArgument :=
  ⟨"copy", some "c", "Copy files", 2, false, none, cbOk⟩

def fileDef : ParsedArgument :=
  ⟨"file", some "f", "Input file", 1, false, none, cbOk⟩

def shW : Shellish :=
  ⟨optsW,
    [("verbose", verboseDef), ("exclude", excludeDef), ("copy", copyDef), ("file", fileDef)],
    [("v", "verbose"), ("c", "copy"), ("f", "file")]⟩

/-- A flag whose callback always raises, as in the repository's own test. -/
def errDef : ParsedArgument :=
  ⟨"err", none, "Argument that throws", 0, false, none, fun _ _ => .error "Callback error"⟩

def shE : Shellish := ⟨optsW, [("err", errDef)], []⟩

/-!
## Claims C1-C3: the arity resolver
-/

/-- C1 (corrected).  For a definition with fixed arity `N ≥ 1` and fewer than
`N` value tokens available after the flag, `processArgument` fails exactly at
the point of shortfall (`nextIndex` is the failing position, no value is
recorded, no callback runs) with the message given by `shortfallMsg`, and the
dispatch loop returns that failure immediately.  `shortfallMsg` names the
flag and the required count in both of its shapes, but reports *either* the
number of available tokens (end-of-input shortfall) *or* the offending token
(flag-like/empty-token shortfall) — not both, which is what corrects the
original claim. -/
theorem claim_c1_fixed_arity_shortfall (sh : Shellish) (d : ParsedArgument)
    (args : List String) (i : Int) (ctx : ParsedContext) (tr : List Event) (fuel : Nat)
    (t : String)
    (hge : 1 ≤ d.args)
    (ht : getTok args i = some t) (hne : t ≠ "")
    (hres : resolveToken sh t = .dispatch d)
    (hshort : avail args (i + 1).toNat < d.args.toNat) :
    processArgument d args i ctx =
      (⟨false, i + 1 + (avail args (i + 1).toNat : Int),
        some (shortfallMsg d.longName d.args args (i + 1 + (avail args (i + 1).toNat : Int))
          (avail args (i + 1).toNat))⟩, ctx, []) ∧
    parseLoop sh args (fuel + 1) i ctx tr =
      some (.failed
        ⟨false, some (shortfallMsg d.longName d.args args
          (i + 1 + (avail args (i + 1).toNat : Int)) (avail args (i + 1).toNat)), none⟩
        ctx tr) := by
  have hi := (getTok_some_bounds args i t ht).1
  have hp := procCollect_fixed_err d args (i + 1) (by omega) (by omega) hshort
  have hpa : processArgument d args i ctx =
      (⟨false, i + 1 + (avail args (i + 1).toNat : Int),
        some (shortfallMsg d.longName d.args args (i + 1 + (avail args (i + 1).toNat : Int))
          (avail args (i + 1).toNat))⟩, ctx, []) := by
    rw [processArgument]
    simp only [hp]
  refine ⟨hpa, ?_⟩
  rw [parseLoop_dispatch sh args fuel i ctx tr t d ht hne hres]
  simp only [hpa]
  simp

/-- C1 witness: a 2-ary `--copy` interrupted by the flag `--backup` after one
value; the message names the flag and the count but not how many values were
available. -/
theorem claim_c1_witness :
    processArgument copyDef ["--copy", "a", "--backup"] 0
        (initCtx shW ["--copy", "a", "--backup"]) =
      (⟨false, 2, some "Argument --copy requires 2 value(s), but found flag --backup"⟩,
        initCtx shW ["--copy", "a", "--backup"], []) ∧
    parseLoop shW ["--copy", "a", "--backup"] 4 0
        (initCtx shW ["--copy", "a", "--backup"]) [] =
      some (.failed
        ⟨false, some "Argument --copy requires 2 value(s), but found flag --backup", none⟩
        (initCtx shW ["--copy", "a", "--backup"]) []) :=
  claim_c1_fixed_arity_shortfall shW copyDef ["--copy", "a", "--backup"] 0
    (initCtx shW ["--copy", "a", "--backup"]) [] 3 "--copy"
    (by decide) rfl (by decide) rfl (by decide)

/-- C1 counterexample to the original claim: in the flag-like-token shortfall
the error message does not report how many value tokens were actually
available (one value, `"a"`, was available, and the digit `1` appears
nowhere in the message). -/
theorem claim_c1_counterexample :
    parse shW ["--copy", "a", "--backup"] =
      some (⟨false, some "Argument --copy requires 2 value(s), but found flag --backup", none⟩,
        [], []) ∧
    "Argument --copy requires 2 value(s), but found flag --backup".data.contains (Char.ofNat 49)
      = false := by
  constructor
  · rfl
  · decide

/-- C2 (confirmed).  For an unbounded (`-1`) arity definition, the resolver
consumes exactly the maximal run of non-empty, non-dash-prefixed tokens
following the flag (`takeWhile isValueTok`), records them in order, and
returns `nextIndex` pointing at the first unconsumed token, so a following
flag is still processed by the loop. -/
theorem claim_c2_unbounded_greedy (d : ParsedArgument) (args : List String) (i : Int)
    (ctx : ParsedContext) (h : d.args = -1) (hi : 0 ≤ i) :
    (processArgument d args i ctx).2.2 =
      [(d.longName, (args.drop (i + 1).toNat).takeWhile isValueTok)] ∧
    (processArgument d args i ctx).1.nextIndex =
      i + 1 + ((args.drop (i + 1).toNat).takeWhile isValueTok).length ∧
    (processArgument d args i ctx).2.1.parsedArguments =
      setValue ctx.parsedArguments d.longName
        (.strs ((args.drop (i + 1).toNat).takeWhile isValueTok)) := by
  have hp := procCollect_unbounded d args (i + 1) h (by omega)
  rw [processArgument]
  simp only [hp]
  have hparts := procFinish_parts d ((args.drop (i + 1).toNat).takeWhile isValueTok)
    (i + 1 + ((args.drop (i + 1).toNat).takeWhile isValueTok).length) ctx
  refine ⟨hparts.1, hparts.2.1, ?_⟩
  rw [hparts.2.2, h, normalize_neg_one]

/-- C2 witness: `["--exclude","a","b","--verbose"]` — `exclude` consumes
`["a","b"]`, stops at `--verbose`, and the whole parse still processes
`verbose` afterwards. -/
theorem claim_c2_witness :
    ((processArgument excludeDef ["--exclude", "a", "b", "--verbose"] 0
        (initCtx shW ["--exclude", "a", "b", "--verbose"])).2.2 =
      [("exclude", ["a", "b"])] ∧
    (processArgument excludeDef ["--exclude", "a", "b", "--verbose"] 0
        (initCtx shW ["--exclude", "a", "b", "--verbose"])).1.nextIndex = 3 ∧
    (processArgument excludeDef ["--exclude", "a", "b", "--verbose"] 0
        (initCtx shW ["--exclude", "a", "b", "--verbose"])).2.1.parsedArguments =
      [("exclude", .strs ["a", "b"])]) ∧
    parse shW ["--exclude", "a", "b", "--verbose"] =
      some (⟨true, none, none⟩,
        [("exclude", .strs ["a", "b"]), ("verbose", .bool true)],
        [("exclude", ["a", "b"]), ("verbose", [])]) :=
  ⟨claim_c2_unbounded_greedy excludeDef ["--exclude", "a", "b", "--verbose"] 0
      (initCtx shW ["--exclude", "a", "b", "--verbose"]) rfl (by decide), rfl⟩

/-- C3 (confirmed).  Whenever a matched definition's callback was invoked
with collected values `vals` (equivalently: collection succeeded), the value
recorded under its long name follows the three-way normalization: arity 0
records `true`, arity 1 records the single string unwrapped, arity `≥ 2` or
`-1` records the ordered list of strings. -/
theorem claim_c3_value_normalization (d : ParsedArgument) (args : List String) (i : Int)
    (ctx : ParsedContext) (vals : List String)
    (h : (processArgument d args i ctx).2.2 = [(d.longName, vals)]) :
    (d.args = 0 →
      List.lookup d.longName (processArgument d args i ctx).2.1.parsedArguments =
        some (.bool true)) ∧
    (d.args = 1 →
      ∃ s, vals = [s] ∧
        List.lookup d.longName (processArgument d args i ctx).2.1.parsedArguments =
          some (.str s)) ∧
    ((2 ≤ d.args ∨ d.args = -1) →
      List.lookup d.longName (processArgument d args i ctx).2.1.parsedArguments =
        some (.strs vals)) := by
  obtain ⟨hpa, hlen⟩ := processArgument_trace_parts d args i ctx vals h
  rw [hpa, lookup_setValue_self]
  refine ⟨?_, ?_, ?_⟩
  · intro h0
    rw [h0]
    unfold normalize
    rw [if_pos rfl]
  · intro h1
    have := hlen (by omega)
    rw [h1] at this
    obtain ⟨s, rfl⟩ := List.length_eq_one.mp (by simpa using this)
    refine ⟨s, rfl, ?_⟩
    rw [h1]
    unfold normalize
    rw [if_neg (by omega), if_pos rfl]
  · intro h2
    unfold normalize
    rw [if_neg (by omega), if_neg (by omega)]

/-- C3 witness: arity 0 (`verbose`), arity 1 (`file`), arity 2 (`copy`) and
unbounded (`exclude`) each record the shape the claim describes. -/
theorem claim_c3_witness :
    List.lookup "verbose"
      (processArgument verboseDef ["--verbose"] 0 (initCtx shW ["--verbose"])).2.1.parsedArguments
      = some (.bool true) ∧
    (∃ s, ["test.txt"] = [s] ∧
      List.lookup "file"
        (processArgument fileDef ["--file", "test.txt"] 0
          (initCtx shW ["--file", "test.txt"])).2.1.parsedArguments = some (.str s)) ∧
    List.lookup "copy"
      (processArgument copyDef ["--copy", "a", "b"] 0
        (initCtx shW ["--copy", "a", "b"])).2.1.parsedArguments = some (.strs ["a", "b"]) :=
  ⟨(claim_c3_value_normalization verboseDef ["--verbose"] 0 (initCtx shW ["--verbose"]) []
      rfl).1 rfl,
   (claim_c3_value_normalization fileDef ["--file", "test.txt"] 0
      (initCtx shW ["--file", "test.txt"]) ["test.txt"] rfl).2.1 rfl,
   (claim_c3_value_normalization copyDef ["--copy", "a", "b"] 0
      (initCtx shW ["--copy", "a", "b"]) ["a", "b"] rfl).2.2 (Or.inl (by decide))⟩

/-!
## Claim C6: unknown arguments are a hard stop
-/

/-- C6 (confirmed).  When the dispatch loop's cursor stands on a
double-dash token whose stripped name is not registered, or on a single-dash
token of length `> 1` whose stripped name is not in the short-name lookup,
the walk returns immediately with `Unknown argument: <raw token>`; the
context and the callback trace are exactly what they were — no later token
is processed. -/
theorem claim_c6_unknown_hard_stop (sh : Shellish) (args : List String) (fuel : Nat)
    (i : Int) (ctx : ParsedContext) (tr : List Event) (t : String)
    (ht : getTok args i = some t)
    (hcase : (strStartsWith t "--" = true ∧ List.lookup (strDrop t 2) sh.arguments = none) ∨
      (strStartsWith t "--" = false ∧ strStartsWith t "-" = true ∧ 1 < strLen t ∧
        List.lookup (strDrop t 1) sh.shortNameMap = none)) :
    parseLoop sh args (fuel + 1) i ctx tr =
      some (.failed ⟨false, some ("Unknown argument: " ++ t), none⟩ ctx tr) := by
  have hne : t ≠ "" := by
    intro he
    subst he
    rcases hcase with ⟨h1, _⟩ | ⟨_, _, h3, _⟩
    · exact absurd h1 (by decide)
    · exact absurd h3 (by decide)
  have hres : resolveToken sh t = .unknown := by
    rcases hcase with ⟨h1, h2⟩ | ⟨h1, h2, h3, h4⟩
    · rw [resolveToken, if_pos h1]
      simp only [h2]
    · rw [resolveToken, if_neg (by simp [h1]), if_pos ⟨h2, h3⟩]
      simp only [h4]
  exact parseLoop_unknown sh args fuel i ctx tr t ht hne hres

/-- C6 witness: `--unknown` (long form) and `-z` (short form) both stop the
walk at once with the raw token in the message; the whole `parse` reports
exactly that error. -/
theorem claim_c6_witness :
    parseLoop shW ["--unknown", "--verbose"] 3 0 (initCtx shW ["--unknown", "--verbose"]) [] =
      some (.failed ⟨false, some ("Unknown argument: " ++ "--unknown"), none⟩
        (initCtx shW ["--unknown", "--verbose"]) []) ∧
    parseLoop shW ["-z"] 2 0 (initCtx shW ["-z"]) [] =
      some (.failed ⟨false, some ("Unknown argument: " ++ "-z"), none⟩ (initCtx shW ["-z"]) []) ∧
    parse shW ["--unknown"] =
      some (⟨false, some "Unknown argument: --unknown", none⟩, [], []) :=
  ⟨claim_c6_unknown_hard_stop shW ["--unknown", "--verbose"] 2 0
      (initCtx shW ["--unknown", "--verbose"]) [] "--unknown" rfl (Or.inl ⟨by decide, rfl⟩),
   claim_c6_unknown_hard_stop shW ["-z"] 1 0 (initCtx shW ["-z"]) [] "-z" rfl
      (Or.inr ⟨by decide, by decide, by decide, rfl⟩),
   rfl⟩

/-!
## Claim C8: duplicate registration
-/

/-- C8 (confirmed).  Registering a long name already present fails with the
duplicate-long-name message; registering a fresh long name whose (non-empty)
short name is already present fails with the duplicate-short-name message;
and whenever registration fails, the instance state is returned unchanged,
so every previously registered entry — in particular every short-name
resolution — is unaffected. -/
theorem claim_c8_duplicate_registration (sh : Shellish) (o : ArgumentOptions) :
    ((List.lookup o.longName sh.arguments).isSome →
      addArgument sh o =
        (sh, some ("Argument with long name " ++ sq ++ o.longName ++ sq ++ " already exists"))) ∧
    (∀ s, List.lookup o.longName sh.arguments = none → o.shortName = some s → s ≠ "" →
      (List.lookup s sh.shortNameMap).isSome →
      addArgument sh o =
        (sh, some ("Argument with short name " ++ sq ++ s ++ sq ++ " already exists"))) ∧
    ((addArgument sh o).2.isSome → (addArgument sh o).1 = sh) := by
  refine ⟨?_, ?_, ?_⟩
  · intro h
    simp only [addArgument]
    rw [if_pos h]
  · intro s h1 h2 h3 h4
    simp only [addArgument]
    rw [if_neg (by simp [h1])]
    simp only [h2]
    rw [if_pos h3, if_pos h4]
  · intro h
    simp only [addArgument] at h ⊢
    by_cases h1 : (List.lookup o.longName sh.arguments).isSome
    · rw [if_pos h1]
    · rw [if_neg h1] at h ⊢
      cases ho : o.shortName with
      | none =>
        simp only [ho] at h
        simp at h
      | some s =>
        simp only [ho] at h ⊢
        by_cases h2 : s ≠ ""
        · rw [if_pos h2] at h ⊢
          by_cases h3 : (List.lookup s sh.shortNameMap).isSome
          · rw [if_pos h3]
          · rw [if_neg h3] at h
            simp at h
        · rw [if_neg h2] at h
          simp at h

/-- C8 witness: re-registering `verbose` (duplicate long name) and `loud`
with alias `v` (duplicate short name) against the concrete registry both
fail with the expected message, leave the registry unchanged, and `v` still
resolves to `verbose`. -/
theorem claim_c8_witness :
    addArgument shW ⟨"verbose", none, "dup", some 0, some false, none, cbOk⟩ =
      (shW, some ("Argument with long name " ++ sq ++ "verbose" ++ sq ++ " already exists")) ∧
    addArgument shW ⟨"loud", some "v", "dup", some 0, some false, none, cbOk⟩ =
      (shW, some ("Argument with short name " ++ sq ++ "v" ++ sq ++ " already exists")) ∧
    List.lookup "v"
      (addArgument shW ⟨"loud", some "v", "dup", some 0, some false, none, cbOk⟩).1.shortNameMap =
      some "verbose" := by
  have h1 := (claim_c8_duplicate_registration shW
    ⟨"verbose", none, "dup", some 0, some false, none, cbOk⟩).1 (by rfl)
  have h2 := (claim_c8_duplicate_registration shW
    ⟨"loud", some "v", "dup", some 0, some false, none, cbOk⟩).2.1 "v" rfl rfl
    (by decide) (by rfl)
  refine ⟨h1, h2, ?_⟩
  rw [h2]
  rfl

/-!
## Claim C9: callback failure
-/

lemma processArgument_trace_collect (d : ParsedArgument) (args : List String) (i : Int)
    (ctx : ParsedContext) (vals : List String)
    (h : (processArgument d args i ctx).2.2 = [(d.longName, vals)]) :
    ∃ n', procCollect d args (i + 1) = .ok (vals, n') := by
  cases hc : procCollect d args (i + 1) with
  | error e =>
    obtain ⟨idx, msg⟩ := e
    rw [processArgument] at h
    simp only [hc] at h
    simp at h
  | ok p =>
    obtain ⟨vs, n'⟩ := p
    rw [processArgument] at h
    simp only [hc] at h
    rw [(procFinish_parts d vs n' ctx).1] at h
    obtain rfl : vs = vals := by
      have := List.cons.inj h
      exact congrArg Prod.snd this.1
    exact ⟨n', rfl⟩

/-- C9 (confirmed).  If a matched definition's callback raises, the walk
terminates immediately with
`Error executing callback for --<name>: <message>`; the value recorded for
that flag just before the callback ran is kept, every other entry of
`parsedArguments` is untouched (no rollback of earlier side effects), and
the trace still records the invocation. -/
theorem claim_c9_callback_failure (sh : Shellish) (args : List String) (fuel : Nat)
    (i : Int) (ctx : ParsedContext) (tr : List Event) (t : String) (d : ParsedArgument)
    (vals : List String) (m : String)
    (ht : getTok args i = some t) (hne : t ≠ "")
    (hres : resolveToken sh t = .dispatch d)
    (hvals : (processArgument d args i ctx).2.2 = [(d.longName, vals)])
    (hcb : d.callback vals
      { ctx with parsedArguments := setValue ctx.parsedArguments d.longName (normalize d.args vals) } =
      .error m) :
    parseLoop sh args (fuel + 1) i ctx tr =
      some (.failed
        ⟨false, some s!"Error executing callback for --{d.longName}: {m}", none⟩
        { ctx with parsedArguments :=
            setValue ctx.parsedArguments d.longName (normalize d.args vals) }
        (tr ++ [(d.longName, vals)])) ∧
    List.lookup d.longName (setValue ctx.parsedArguments d.longName (normalize d.args vals)) =
      some (normalize d.args vals) ∧
    (∀ k, k ≠ d.longName →
      List.lookup k (setValue ctx.parsedArguments d.longName (normalize d.args vals)) =
        List.lookup k ctx.parsedArguments) := by
  obtain ⟨n', hc⟩ := processArgument_trace_collect d args i ctx vals hvals
  have hfull : processArgument d args i ctx =
      (⟨false, n', some s!"Error executing callback for --{d.longName}: {m}"⟩,
        { ctx with parsedArguments :=
            setValue ctx.parsedArguments d.longName (normalize d.args vals) },
        [(d.longName, vals)]) := by
    rw [processArgument]
    simp only [hc]
    unfold procFinish
    simp only [hcb]
  refine ⟨?_, lookup_setValue_self _ _ _, fun k hk => lookup_setValue_ne _ _ _ _ hk⟩
  rw [parseLoop_dispatch sh args fuel i ctx tr t d ht hne hres]
  simp only [hfull]
  simp

/-- C9 witness: a flag whose callback throws `Callback error`; the parse
fails with the attributed message while the recorded `true` for the flag is
kept. -/
theorem claim_c9_witness :
    parseLoop shE ["--err"] 2 0 (initCtx shE ["--err"]) [] =
      some (.failed ⟨false, some "Error executing callback for --err: Callback error", none⟩
        { initCtx shE ["--err"] with parsedArguments := [("err", .bool true)] }
        [("err", [])]) ∧
    parse shE ["--err"] =
      some (⟨false, some "Error executing callback for --err: Callback error", none⟩,
        [("err", .bool true)], [("err", [])]) := by
  have h := (claim_c9_callback_failure shE ["--err"] 1 0 (initCtx shE ["--err"]) [] "--err"
    errDef [] "Callback error" rfl (by decide) rfl rfl rfl).1
  exact ⟨h, rfl⟩

/-!
## Claims C4-C5: the post-parse required/default pass
-/

lemma find?_congr {α : Type} (xs : List α) (p q : α → Bool)
    (h : ∀ x ∈ xs, p x = q x) : xs.find? p = xs.find? q := by
  induction xs with
  | nil => rfl
  | cons a l ih =>
    by_cases hqa : q a = true
    · rw [List.find?_cons_of_pos _ (by rw [h a (List.mem_cons_self a l)]; exact hqa),
        List.find?_cons_of_pos _ hqa]
    · rw [List.find?_cons_of_neg _ (by rw [h a (List.mem_cons_self a l)]; exact hqa),
        List.find?_cons_of_neg _ hqa]
      exact ih (fun x hx => h x (List.mem_cons_of_mem a hx))

lemma firstFatal_setValue_ne (rest : List (String × ParsedArgument))
    (pa : List (String × Value)) (l₀ : String) (v : Value)
    (h : l₀ ∉ rest.map Prod.fst) :
    firstFatal rest (setValue pa l₀ v) = firstFatal rest pa := by
  rw [firstFatal, firstFatal,
    find?_congr rest (fatalPred (setValue pa l₀ v)) (fatalPred pa) ?_]
  intro x hx
  have hne : x.1 ≠ l₀ := by
    intro he
    exact h (by rw [← he]; exact List.mem_map_of_mem Prod.fst hx)
  simp [fatalPred, lookup_setValue_ne pa l₀ x.1 v hne]

lemma checkRequired_error_char :
    ∀ (reg : List (String × ParsedArgument)) (pa : List (String × Value)),
      (reg.map Prod.fst).Nodup → ∀ l, firstFatal reg pa = some l →
      checkRequired reg pa = .error s!"Required argument --{l} is missing" := by
  intro reg
  induction reg with
  | nil =>
    intro pa _ l hl
    simp [firstFatal] at hl
  | cons hd rest ih =>
    intro pa hnd l hl
    obtain ⟨l₀, d₀⟩ := hd
    rw [List.map_cons] at hnd
    have hnd' : (rest.map Prod.fst).Nodup := (List.nodup_cons.mp hnd).2
    have hl₀ : l₀ ∉ rest.map Prod.fst := (List.nodup_cons.mp hnd).1
    by_cases hp : fatalPred pa (l₀, d₀) = true
    · have hthis : firstFatal ((l₀, d₀) :: rest) pa = some l₀ := by
        rw [firstFatal, List.find?_cons_of_pos _ hp]
        rfl
      rw [hthis] at hl
      obtain rfl : l₀ = l := by injection hl
      obtain ⟨hreq, hmiss, hdef⟩ :
          d₀.required = true ∧ (List.lookup l₀ pa).isNone = true ∧
            d₀.defaultValue.isNone = true := by
        simp only [fatalPred, Bool.and_eq_true] at hp
        exact ⟨hp.1.1, hp.1.2, hp.2⟩
      rw [checkRequired, if_pos ⟨hreq, hmiss⟩, Option.isNone_iff_eq_none.mp hdef]
    · have hff : firstFatal ((l₀, d₀) :: rest) pa = firstFatal rest pa := by
        rw [firstFatal, firstFatal, List.find?_cons_of_neg _ hp]
      rw [hff] at hl
      rw [checkRequired]
      by_cases hc : d₀.required = true ∧ (List.lookup l₀ pa).isNone = true
      · rw [if_pos hc]
        cases hdv : d₀.defaultValue with
        | none => exact absurd (by simp [fatalPred, hc.1, hc.2, hdv]) hp
        | some v =>
          have hcong : firstFatal rest (setValue pa l₀ v) = firstFatal rest pa :=
            firstFatal_setValue_ne rest pa l₀ v hl₀
          exact ih (setValue pa l₀ v) hnd' l (by rw [hcong]; exact hl)
      · rw [if_neg hc]
        exact ih pa hnd' l hl

lemma checkRequired_ok_char :
    ∀ (reg : List (String × ParsedArgument)) (pa : List (String × Value)),
      (reg.map Prod.fst).Nodup → firstFatal reg pa = none →
      ∃ pa', checkRequired reg pa = .ok pa' ∧
        (∀ l d v, (l, d) ∈ reg → d.required = true → List.lookup l pa = none →
          d.defaultValue = some v → List.lookup l pa' = some v) ∧
        (∀ k, k ∉ reg.map Prod.fst → List.lookup k pa' = List.lookup k pa) := by
  intro reg
  induction reg with
  | nil =>
    intro pa _ _
    exact ⟨pa, rfl, by simp, fun k _ => rfl⟩
  | cons hd rest ih =>
    intro pa hnd hff
    obtain ⟨l₀, d₀⟩ := hd
    rw [List.map_cons] at hnd
    have hnd' : (rest.map Prod.fst).Nodup := (List.nodup_cons.mp hnd).2
    have hl₀ : l₀ ∉ rest.map Prod.fst := (List.nodup_cons.mp hnd).1
    have hp : ¬ fatalPred pa (l₀, d₀) = true := by
      intro hb
      rw [firstFatal, List.find?_cons_of_pos _ hb] at hff
      simp at hff
    have hffrest : firstFatal rest pa = none := by
      rw [firstFatal, List.find?_cons_of_neg _ hp] at hff
      exact hff
    rw [checkRequired]
    by_cases hc : d₀.required = true ∧ (List.lookup l₀ pa).isNone = true
    · rw [if_pos hc]
      cases hdv : d₀.defaultValue with
      | none => exact absurd (by simp [fatalPred, hc.1, hc.2, hdv]) hp
      | some v₀ =>
        have hcong : firstFatal rest (setValue pa l₀ v₀) = none := by
          rw [firstFatal_setValue_ne rest pa l₀ v₀ hl₀]
          exact hffrest
        obtain ⟨pa', hok, hfill, huntouched⟩ := ih (setValue pa l₀ v₀) hnd' hcong
        refine ⟨pa', hok, ?_, ?_⟩
        · intro l d v hmem hreq hmiss hdef
          rcases List.mem_cons.mp hmem with heq | hmem'
          · obtain ⟨rfl, rfl⟩ : l = l₀ ∧ d = d₀ := by
              have h1 := congrArg Prod.fst heq
              have h2 := congrArg Prod.snd heq
              exact ⟨h1, h2⟩
            obtain rfl : v = v₀ := by
              rw [hdv] at hdef
              injection hdef with h
              exact h.symm
            rw [huntouched l hl₀, lookup_setValue_self]
          · have hne : l ≠ l₀ := by
              intro he
              subst he
              exact hl₀ (List.mem_map_of_mem Prod.fst hmem')
            refine hfill l d v hmem' hreq ?_ hdef
            rw [lookup_setValue_ne _ _ _ _ hne]
            exact hmiss
        · intro k hk
          have hk₀ : k ≠ l₀ := fun he => hk (by simp [he])
          have hk' : k ∉ rest.map Prod.fst := fun h => hk (by simp [h])
          rw [huntouched k hk', lookup_setValue_ne _ _ _ _ hk₀]
    · rw [if_neg hc]
      obtain ⟨pa', hok, hfill, huntouched⟩ := ih pa hnd' hffrest
      refine ⟨pa', hok, ?_, fun k hk => huntouched k (fun h => hk (by simp [h]))⟩
      intro l d v hmem hreq hmiss hdef
      rcases List.mem_cons.mp hmem with heq | hmem'
      · obtain ⟨rfl, rfl⟩ : l = l₀ ∧ d = d₀ :=
          ⟨congrArg Prod.fst heq, congrArg Prod.snd heq⟩
        exact absurd ⟨hreq, by simp [hmiss]⟩ hc
      · exact hfill l d v hmem' hreq hmiss hdef

/-- C4 (confirmed).  With a duplicate-free registry (which `addArgument`
guarantees), the post-parse pass iterated in insertion order reports exactly
the *first* required entry that is absent from `parsedArguments` and has no
default — one error, no aggregation — and when no such entry exists it
succeeds, filling every required-and-absent entry from its default. -/
theorem claim_c4_required_default_pass (reg : List (String × ParsedArgument))
    (pa : List (String × Value)) (hnd : (reg.map Prod.fst).Nodup) :
    (∀ l, firstFatal reg pa = some l →
      checkRequired reg pa = .error s!"Required argument --{l} is missing") ∧
    (firstFatal reg pa = none →
      ∃ pa', checkRequired reg pa = .ok pa' ∧
        ∀ l d v, (l, d) ∈ reg → d.required = true → List.lookup l pa = none →
          d.defaultValue = some v → List.lookup l pa' = some v) := by
  refine ⟨checkRequired_error_char reg pa hnd, fun h => ?_⟩
  obtain ⟨pa', hok, hfill, _⟩ := checkRequired_ok_char reg pa hnd h
  exact ⟨pa', hok, hfill⟩

/-- Required arity-1 definitions for the C4 witness: `gamma` (with default,
registered first), then `alpha` and `beta` (no default). -/
def alphaDef : ParsedArgument := ⟨"alpha", none, "required", 1, true, none, cbOk⟩

def betaDef : ParsedArgument := ⟨"beta", none, "required", 1, true, none, cbOk⟩

def gammaDef : ParsedArgument :=
  ⟨"gamma", none, "required with default", 1, true, some (.str "x"), cbOk⟩

/-- C4 witness: with `gamma` (defaulted), `alpha`, `beta` all required and
absent, the pass reports only `alpha` — the first missing-without-default in
insertion order — and with only `gamma` registered it succeeds and fills the
default. -/
theorem claim_c4_witness :
    checkRequired [("gamma", gammaDef), ("alpha", alphaDef), ("beta", betaDef)] [] =
      .error "Required argument --alpha is missing" ∧
    (∃ pa', checkRequired [("gamma", gammaDef)] [] = .ok pa' ∧
      List.lookup "gamma" pa' = some (.str "x")) := by
  have h1 := (claim_c4_required_default_pass
    [("gamma", gammaDef), ("alpha", alphaDef), ("beta", betaDef)] [] (by decide)).1 "alpha" rfl
  have h2 := (claim_c4_required_default_pass [("gamma", gammaDef)] [] (by decide)).2 rfl
  obtain ⟨pa', hok, hfill⟩ := h2
  exact ⟨h1, pa', hok,
    hfill "gamma" gammaDef (.str "x") (List.mem_cons_self _ _) rfl rfl rfl⟩

lemma processArgument_cases (d : ParsedArgument) (args : List String) (i : Int)
    (ctx : ParsedContext) :
    ((processArgument d args i ctx).2.1 = ctx ∧ (processArgument d args i ctx).2.2 = []) ∨
    (∃ vals, (processArgument d args i ctx).2.2 = [(d.longName, vals)] ∧
      (processArgument d args i ctx).2.1.parsedArguments =
        setValue ctx.parsedArguments d.longName (normalize d.args vals)) := by
  rw [processArgument]
  cases hc : procCollect d args (i + 1) with
  | error e =>
    obtain ⟨a, b⟩ := e
    simp only [hc]
    exact Or.inl ⟨by trivial, by trivial⟩
  | ok p =>
    obtain ⟨vs, n'⟩ := p
    simp only [hc]
    exact Or.inr ⟨vs, (procFinish_parts d vs n' ctx).1, (procFinish_parts d vs n' ctx).2.2⟩

lemma parseLoop_trace_keys (sh : Shellish) (args : List String) :
    ∀ (fuel : Nat) (i : Int) (ctx : ParsedContext) (tr : List Event) (w : WalkResult),
      parseLoop sh args fuel i ctx tr = some w →
      (∀ e ∈ tr, (List.lookup e.1 ctx.parsedArguments).isSome) →
      ∀ e ∈ w.trace, (List.lookup e.1 w.ctx.parsedArguments).isSome := by
  intro fuel
  induction fuel with
  | zero =>
    intro i ctx tr w h _
    simp [parseLoop] at h
  | succ fuel ih =>
    intro i ctx tr w h hinv
    rw [parseLoop] at h
    by_cases hlt : i < (args.length : Int)
    · rw [if_pos hlt] at h
      cases hget : getTok args i with
      | none =>
        simp only [hget] at h
        exact ih (i + 1) ctx tr w h hinv
      | some t =>
        simp only [hget] at h
        by_cases hte : t = ""
        · rw [if_pos hte] at h
          exact ih (i + 1) ctx tr w h hinv
        · rw [if_neg hte] at h
          cases hres : resolveToken sh t with
          | skip =>
            simp only [hres] at h
            exact ih (i + 1) ctx tr w h hinv
          | unknown =>
            simp only [hres] at h
            obtain rfl : WalkResult.failed ⟨false, some ("Unknown argument: " ++ t), none⟩ ctx tr = w := by
              injection h
            exact hinv
          | internalErr l =>
            simp only [hres] at h
            obtain rfl : WalkResult.failed
                ⟨false, some ("Internal error: argument definition not found for " ++ l), none⟩
                ctx tr = w := by
              injection h
            exact hinv
          | dispatch d =>
            simp only [hres] at h
            have hinv' : ∀ e ∈ tr ++ (processArgument d args i ctx).2.2,
                (List.lookup e.1 (processArgument d args i ctx).2.1.parsedArguments).isSome := by
              rcases processArgument_cases d args i ctx with ⟨hctx, hevs⟩ | ⟨vals, hevs, hpa⟩
              · rw [hctx, hevs]
                simpa using hinv
              · rw [hevs, hpa]
                intro e he
                rcases List.mem_append.mp he with hold | hnew
                · exact lookup_setValue_isSome _ _ _ _ (hinv e hold)
                · obtain rfl : e = (d.longName, vals) := by simpa using hnew
                  simp [lookup_setValue_self]
            by_cases hs : (processArgument d args i ctx).1.success = true
            · rw [if_pos hs] at h
              exact ih _ _ _ w h hinv'
            · rw [if_neg hs] at h
              obtain rfl : WalkResult.failed ⟨false, (processArgument d args i ctx).1.error, none⟩
                  (processArgument d args i ctx).2.1
                  (tr ++ (processArgument d args i ctx).2.2) = w := by
                injection h
              exact hinv'
    · rw [if_neg hlt] at h
      obtain rfl : WalkResult.completed ctx tr = w := by injection h
      exact hinv

/-- C5 (confirmed).  If the token walk completes without ever matching a
required definition that has a default, and every other required-and-absent
definition also has a default, then `parse` succeeds, the default value is
recorded under the definition's long name, and the definition's callback was
never invoked (its long name appears in no trace event). -/
theorem claim_c5_default_no_callback (sh : Shellish) (args : List String)
    (d : ParsedArgument) (v : Value) (ctx : ParsedContext) (tr : List Event)
    (hwalk : parseLoop sh args (args.length + 1) 0 (initCtx sh args) [] =
      some (.completed ctx tr))
    (hnd : (sh.arguments.map Prod.fst).Nodup)
    (hmem : (d.longName, d) ∈ sh.arguments)
    (hreq : d.required = true) (hdef : d.defaultValue = some v)
    (hmiss : List.lookup d.longName ctx.parsedArguments = none)
    (hothers : ∀ l' d', (l', d') ∈ sh.arguments → d'.required = true →
      List.lookup l' ctx.parsedArguments = none → d'.defaultValue.isSome) :
    ∃ pa', parse sh args = some (⟨true, none, none⟩, pa', tr) ∧
      List.lookup d.longName pa' = some v ∧
      ∀ vs, (d.longName, vs) ∉ tr := by
  have hff : firstFatal sh.arguments ctx.parsedArguments = none := by
    cases hf : sh.arguments.find? (fatalPred ctx.parsedArguments) with
    | none => rw [firstFatal, hf]; rfl
    | some p =>
      exfalso
      have hpmem := List.mem_of_find?_eq_some hf
      have hptrue := List.find?_some hf
      obtain ⟨hreq', hmiss', hdef'⟩ :
          p.2.required = true ∧ (List.lookup p.1 ctx.parsedArguments).isNone = true ∧
            p.2.defaultValue.isNone = true := by
        simp only [fatalPred, Bool.and_eq_true] at hptrue
        exact ⟨hptrue.1.1, hptrue.1.2, hptrue.2⟩
      have hsome := hothers p.1 p.2 (by simpa using hpmem) hreq'
        (Option.isNone_iff_eq_none.mp hmiss')
      rw [Option.isNone_iff_eq_none.mp hdef'] at hsome
      simp at hsome
  obtain ⟨pa', hok, hfill, _⟩ := checkRequired_ok_char sh.arguments ctx.parsedArguments hnd hff
  refine ⟨pa', ?_, hfill d.longName d v hmem hreq hmiss hdef, ?_⟩
  · rw [parse]
    simp only [hwalk, hok]
  · intro vs hvs
    have hkey := parseLoop_trace_keys sh args (args.length + 1) 0 (initCtx sh args) []
      (.completed ctx tr) hwalk (by simp) (d.longName, vs) hvs
    simp only [WalkResult.ctx, WalkResult.trace] at hkey
    rw [hmiss] at hkey
    simp at hkey

/-- Required arity-1 definition with a default, for the C5 witness. -/
def reqDefD : ParsedArgument := ⟨"req", none, "required", 1, true, some (.str "x"), cbOk⟩

def shD : Shellish := ⟨optsW, [("req", reqDefD)], []⟩

/-- C5 witness: parsing `[]` against a required arity-1 argument with
default `"x"` succeeds, records the default, and invokes no callback. -/
theorem claim_c5_witness :
    ∃ pa', parse shD [] = some (⟨true, none, none⟩, pa', []) ∧
      List.lookup "req" pa' = some (.str "x") ∧
      ∀ vs, (("req", vs) : Event) ∉ ([] : List Event) :=
  claim_c5_default_no_callback shD [] reqDefD (.str "x") (initCtx shD []) [] rfl (by decide)
    (List.mem_cons_self _ _) rfl rfl rfl
    (by
      intro l' d' hm hr hl
      have h1 : l' = "req" ∧ d' = reqDefD := by simpa [shD, Prod.ext_iff] using hm
      rw [h1.2]
      rfl)

/-!
## Claim C10: termination of the dispatch loop
-/

lemma parseLoop_internal (sh : Shellish) (args : List String) (fuel : Nat) (i : Int)
    (ctx : ParsedContext) (tr : List Event) (t l : String)
    (ht : getTok args i = some t) (hne : t ≠ "")
    (hres : resolveToken sh t = .internalErr l) :
    parseLoop sh args (fuel + 1) i ctx tr =
      some (.failed ⟨false, some ("Internal error: argument definition not found for " ++ l),
        none⟩ ctx tr) := by
  have hb := getTok_some_bounds args i t ht
  rw [parseLoop, if_pos hb.2]
  simp only [ht]
  rw [if_neg hne]
  simp only [hres]

lemma processArgument_nextIndex_ge (d : ParsedArgument) (args : List String) (i : Int)
    (ctx : ParsedContext) (hd : -1 ≤ d.args)
    (hs : (processArgument d args i ctx).1.success = true) :
    i + 1 ≤ (processArgument d args i ctx).1.nextIndex := by
  rw [processArgument] at hs ⊢
  cases hc : procCollect d args (i + 1) with
  | error e =>
    obtain ⟨a, b⟩ := e
    simp only [hc] at hs
    simp at hs
  | ok p =>
    obtain ⟨vs, n'⟩ := p
    simp only [hc] at hs ⊢
    rw [(procFinish_parts d vs n' ctx).2.1]
    rw [procCollect] at hc
    by_cases hm : d.args = -1
    · rw [if_pos hm] at hc
      injection hc with h'
      have hn' : n' = (i + 1) + ((collectUnbounded args (i + 1)).length : Int) :=
        (congrArg Prod.snd h').symm
      omega
    · rw [if_neg hm] at hc
      cases hcf : collectFixed d.longName d.args args (i + 1) with
      | error e => rw [hcf] at hc; exact absurd hc (by simp)
      | ok vs2 =>
        rw [hcf] at hc
        injection hc with h'
        have hn' : n' = (i + 1) + d.args := (congrArg Prod.snd h').symm
        omega

lemma resolveToken_dispatch_mem (sh : Shellish) (t : String) (d : ParsedArgument)
    (h : resolveToken sh t = .dispatch d) : ∃ l, (l, d) ∈ sh.arguments := by
  rw [resolveToken] at h
  by_cases h1 : strStartsWith t "--" = true
  · rw [if_pos h1] at h
    cases hl : List.lookup (strDrop t 2) sh.arguments with
    | none => simp only [hl] at h; cases h
    | some d' =>
      simp only [hl] at h
      obtain rfl : d' = d := by injection h
      exact ⟨_, lookup_mem _ _ _ hl⟩
  · rw [if_neg h1] at h
    by_cases h2 : strStartsWith t "-" = true ∧ 1 < strLen t
    · rw [if_pos h2] at h
      cases hs : List.lookup (strDrop t 1) sh.shortNameMap with
      | none => simp only [hs] at h; cases h
      | some l =>
        simp only [hs] at h
        cases hl : List.lookup l sh.arguments with
        | none => simp only [hl] at h; cases h
        | some d' =>
          simp only [hl] at h
          obtain rfl : d' = d := by injection h
          exact ⟨l, lookup_mem _ _ _ hl⟩
    · rw [if_neg h2] at h
      cases h

lemma parseLoop_total (sh : Shellish) (args : List String)
    (hgood : ∀ l d, (l, d) ∈ sh.arguments → -1 ≤ d.args) :
    ∀ (fuel : Nat) (i : Int) (ctx : ParsedContext) (tr : List Event),
      (args.length : Int) ≤ i + fuel → (parseLoop sh args (fuel + 1) i ctx tr).isSome := by
  intro fuel
  induction fuel with
  | zero =>
    intro i ctx tr hb
    rw [parseLoop_completed sh args 0 i ctx tr (by omega)]
    simp
  | succ fuel ih =>
    intro i ctx tr hb
    by_cases hlt : i < (args.length : Int)
    · cases hget : getTok args i with
      | none =>
        rw [parseLoop_skip_none sh args (fuel + 1) i ctx tr hlt hget]
        exact ih (i + 1) ctx tr (by omega)
      | some t =>
        by_cases hte : t = ""
        · subst hte
          rw [parseLoop_skip_empty sh args (fuel + 1) i ctx tr hlt hget]
          exact ih (i + 1) ctx tr (by omega)
        · cases hres : resolveToken sh t with
          | skip =>
            rw [parseLoop_skip_bare sh args (fuel + 1) i ctx tr t hlt hget hte hres]
            exact ih (i + 1) ctx tr (by omega)
          | unknown =>
            rw [parseLoop_unknown sh args (fuel + 1) i ctx tr t hget hte hres]
            simp
          | internalErr l =>
            rw [parseLoop_internal sh args (fuel + 1) i ctx tr t l hget hte hres]
            simp
          | dispatch d =>
            rw [parseLoop_dispatch sh args (fuel + 1) i ctx tr t d hget hte hres]
            obtain ⟨l, hmem⟩ := resolveToken_dispatch_mem sh t d hres
            have hd := hgood l d hmem
            rcases hq : processArgument d args i ctx with ⟨r, ctx', evs⟩
            simp only [hq]
            by_cases hsucc : r.success = true
            · rw [if_pos hsucc]
              have hge : i + 1 ≤ r.nextIndex := by
                have := processArgument_nextIndex_ge d args i ctx hd (by rw [hq]; exact hsucc)
                rw [hq] at this
                exact this
              exact ih r.nextIndex ctx' (tr ++ evs) (by omega)
            · rw [if_neg hsucc]
              simp
    · rw [parseLoop_completed sh args (fuel + 1) i ctx tr hlt]
      simp

/-- C10 (corrected): the amended claim.  For every registry whose definitions
all have arity `≥ -1` — the arities the specification's data model admits —
`parse` terminates: `args.length + 1` loop iterations always suffice, because
each iteration either returns or moves the cursor forward by at least one
(`processArgument` returns `nextIndex ≥ currentIndex + 1` for these arities). -/
theorem claim_c10_termination (sh : Shellish) (args : List String)
    (hgood : ∀ l d, (l, d) ∈ sh.arguments → -1 ≤ d.args) :
    (parse sh args).isSome ∧ ParseTerminates sh args := by
  have h := parseLoop_total sh args hgood args.length 0 (initCtx sh args) [] (by omega)
  constructor
  · rw [parse]
    cases hw : parseLoop sh args (args.length + 1) 0 (initCtx sh args) [] with
    | none => rw [hw] at h; simp at h
    | some w =>
      cases w with
      | failed r ctx tr => simp only [hw]; simp
      | completed ctx tr =>
        simp only [hw]
        cases checkRequired sh.arguments ctx.parsedArguments <;> simp
  · exact ⟨args.length + 1, h⟩

/-- C10 witness: the example registry (all arities in `{-1, 0, 1, 2}`)
terminates on a concrete input. -/
theorem claim_c10_witness :
    (parse shW ["--exclude", "a", "b", "--verbose"]).isSome ∧
    ParseTerminates shW ["--exclude", "a", "b", "--verbose"] :=
  claim_c10_termination shW ["--exclude", "a", "b", "--verbose"]
    (by
      intro l d h
      simp only [shW, List.mem_cons, Prod.ext_iff, List.not_mem_nil, or_false] at h
      rcases h with ⟨_, rfl⟩ | ⟨_, rfl⟩ | ⟨_, rfl⟩ | ⟨_, rfl⟩ <;> decide)

/-- A definition with arity `-2`, registrable through `addArgument` since the
source never validates `args`. -/
def xDef : ParsedArgument := ⟨"x", none, "negative arity", -2, false, none, cbOk⟩

def badOpts : ArgumentOptions :=
  ⟨"x", none, "negative arity", some (-2), some false, none, cbOk⟩

def badSh : Shellish := ⟨optsW, [("x", xDef)], []⟩

/-- The context after the first dispatch of `--x` in `["a", "--x"]`; the loop
then cycles between cursor positions 1 and 0 in this context forever. -/
def badCtx : ParsedContext :=
  { command := "test-cli", remainingArgs := ["a", "--x"], allArgs := ["a", "--x"],
    parsedArguments := [("x", Value.strs [])] }

lemma badSh_cycle :
    ∀ (n : Nat) (tr : List Event),
      parseLoop badSh ["a", "--x"] n 0 badCtx tr = none ∧
      parseLoop badSh ["a", "--x"] n 1 badCtx tr = none := by
  intro n
  induction n with
  | zero => intro tr; exact ⟨rfl, rfl⟩
  | succ n ih =>
    intro tr
    constructor
    · rw [parseLoop_skip_bare badSh ["a", "--x"] n 0 badCtx tr "a" (by decide) rfl
        (by decide) rfl]
      have h01 : (0 : Int) + 1 = 1 := by norm_num
      rw [h01]
      exact (ih tr).2
    · rw [parseLoop_dispatch badSh ["a", "--x"] n 1 badCtx tr "--x" xDef rfl (by decide) rfl]
      have hpa : processArgument xDef ["a", "--x"] 1 badCtx =
          (⟨true, 0, none⟩, badCtx, [("x", [])]) := rfl
      simp only [hpa]
      exact (ih (tr ++ [("x", [])])).1

lemma badSh_parseLoop_none :
    ∀ n, parseLoop badSh ["a", "--x"] n 0 (initCtx badSh ["a", "--x"]) [] = none := by
  intro n
  match n with
  | 0 => rfl
  | 1 => rfl
  | 2 => rfl
  | n + 3 =>
    have h1 : parseLoop badSh ["a", "--x"] (n + 3) 0 (initCtx badSh ["a", "--x"]) [] =
        parseLoop badSh ["a", "--x"] (n + 2) 1 (initCtx badSh ["a", "--x"]) [] := by
      rw [parseLoop_skip_bare badSh ["a", "--x"] (n + 2) 0 (initCtx badSh ["a", "--x"]) []
        "a" (by decide) rfl (by decide) rfl]
      norm_num
    have h2 : parseLoop badSh ["a", "--x"] (n + 2) 1 (initCtx badSh ["a", "--x"]) [] =
        parseLoop badSh ["a", "--x"] (n + 1) 0 badCtx [("x", [])] := by
      rw [parseLoop_dispatch badSh ["a", "--x"] (n + 1) 1 (initCtx badSh ["a", "--x"]) []
        "--x" xDef rfl (by decide) rfl]
      have hpa : processArgument xDef ["a", "--x"] 1 (initCtx badSh ["a", "--x"]) =
          (⟨true, 0, none⟩, badCtx, [("x", [])]) := rfl
      simp only [hpa]
      simp
    rw [h1, h2]
    exact (badSh_cycle (n + 1) [("x", [])]).1

/-- C10 counterexample to the original claim, which quantifies over *every*
registry: a definition with arity `-2` — accepted by `addArgument`, which
never validates `args` — makes `processArgument` return
`nextIndex = currentIndex - 1`, and on `["a", "--x"]` the dispatch loop
revisits the same two cursor positions forever: no amount of fuel makes the
walk return. -/
theorem claim_c10_counterexample :
    addArgument ⟨optsW, [], []⟩ badOpts = (badSh, none) ∧
    ¬ ParseTerminates badSh ["a", "--x"] := by
  refine ⟨rfl, ?_⟩
  rintro ⟨fuel, hf⟩
  rw [badSh_parseLoop_none fuel] at hf
  simp at hf

/-!
## Claim C7: short and long forms behave identically

The two runs differ only in the head token of the input vector (and hence in
the `allArgs`/`remainingArgs` snapshots of the context, which the engine
never reads after construction).  The proof is a bisimulation of the two
loops: every read the engine performs past position 0 sees identical data.
-/

lemma getTok_cons_zero (a : String) (rest : List String) : getTok (a :: rest) 0 = some a := by
  unfold getTok
  simp

lemma getTok_cons_ne_zero (a b : String) (rest : List String) (m : Int) (h : m ≠ 0) :
    getTok (a :: rest) m = getTok (b :: rest) m := by
  unfold getTok
  by_cases h0 : 0 ≤ m
  · rw [if_pos h0, if_pos h0]
    obtain ⟨k, hk⟩ : ∃ k, m.toNat = k + 1 := ⟨m.toNat - 1, by omega⟩
    rw [hk, List.getElem?_cons_succ, List.getElem?_cons_succ]
  · rw [if_neg h0, if_neg h0]

lemma collectUnboundedAux_cons (a b : String) (rest : List String) (n : Int) (hn : 1 ≤ n) :
    ∀ (k j : Nat),
      collectUnboundedAux (a :: rest) n j k = collectUnboundedAux (b :: rest) n j k := by
  intro k
  induction k with
  | zero => intro j; rfl
  | succ k ih =>
    intro j
    rw [collectUnboundedAux, collectUnboundedAux]
    simp only [List.length_cons]
    by_cases hc : n + (j : Int) < ((rest.length + 1 : Nat) : Int)
    · rw [if_pos hc, if_pos hc, getTok_cons_ne_zero a b rest (n + j) (by omega)]
      cases hg : getTok (b :: rest) (n + j) with
      | none => rfl
      | some t =>
        simp only [hg]
        by_cases ht : t = "" ∨ strStartsWith t "-" = true
        · rw [if_pos ht, if_pos ht]
        · rw [if_neg ht, if_neg ht, ih (j + 1)]
    · rw [if_neg hc, if_neg hc]

lemma collectFixedAux_cons (l : String) (need : Int) (a b : String) (rest : List String)
    (n : Int) (hn : 1 ≤ n) :
    ∀ (count j : Nat),
      collectFixedAux l need (a :: rest) n j count =
        collectFixedAux l need (b :: rest) n j count := by
  intro count
  induction count with
  | zero => intro j; rfl
  | succ count ih =>
    intro j
    rw [collectFixedAux, collectFixedAux]
    simp only [List.length_cons]
    by_cases h1 : ((rest.length + 1 : Nat) : Int) ≤ n + j
    · rw [if_pos h1, if_pos h1]
    · rw [if_neg h1, if_neg h1, getTok_cons_ne_zero a b rest (n + j) (by omega)]
      cases hg : getTok (b :: rest) (n + j) with
      | none => rfl
      | some t =>
        simp only [hg]
        by_cases he : t = ""
        · rw [if_pos he, if_pos he]
        · rw [if_neg he, if_neg he]
          by_cases hd : strStartsWith t "-" = true
          · rw [if_pos hd, if_pos hd]
          · rw [if_neg hd, if_neg hd, ih (j + 1)]

lemma collectUnbounded_cons (a b : String) (rest : List String) (n : Int) (hn : 1 ≤ n) :
    collectUnbounded (a :: rest) n = collectUnbounded (b :: rest) n := by
  rw [collectUnbounded, collectUnbounded]
  simp only [List.length_cons]
  exact collectUnboundedAux_cons a b rest n hn (rest.length + 1 + 1) 0

lemma procCollect_cons (d : ParsedArgument) (a b : String) (rest : List String) (n : Int)
    (hn : 1 ≤ n) : procCollect d (a :: rest) n = procCollect d (b :: rest) n := by
  rw [procCollect, procCollect]
  by_cases hm : d.args = -1
  · rw [if_pos hm, if_pos hm, collectUnbounded_cons a b rest n hn]
  · rw [if_neg hm, if_neg hm, collectFixed, collectFixed,
      collectFixedAux_cons d.longName d.args a b rest n hn d.args.toNat 0]

/-- A consumer callback whose result depends on the context only through
`command` and `parsedArguments` — it does not discriminate on the raw token
vector (`allArgs` / `remainingArgs`).  The source places no such restriction
on callbacks, so the short/long equivalence below must assume it; the
counterexample shows a callback reading `allArgs` breaks the equivalence. -/
def ObservesOnlyParsed (cb : List String → ParsedContext → Except String Unit) : Prop :=
  ∀ vals (c₁ c₂ : ParsedContext), c₁.command = c₂.command →
    c₁.parsedArguments = c₂.parsedArguments → cb vals c₁ = cb vals c₂

lemma procFinish_congr (d : ParsedArgument) (vals : List String) (n' : Int)
    (ctx ctxb : ParsedContext)
    (hcmd : ctx.command = ctxb.command)
    (hpa : ctx.parsedArguments = ctxb.parsedArguments)
    (hblind : ObservesOnlyParsed d.callback) :
    (procFinish d vals n' ctx).1 = (procFinish d vals n' ctxb).1 ∧
    (procFinish d vals n' ctx).2.1.parsedArguments =
      (procFinish d vals n' ctxb).2.1.parsedArguments ∧
    (procFinish d vals n' ctx).2.1.command = (procFinish d vals n' ctxb).2.1.command ∧
    (procFinish d vals n' ctx).2.2 = (procFinish d vals n' ctxb).2.2 := by
  unfold procFinish
  rw [hpa]
  dsimp only
  have hcb : d.callback vals
        { ctx with parsedArguments :=
            setValue ctxb.parsedArguments d.longName (normalize d.args vals) } =
      d.callback vals
        { ctxb with parsedArguments :=
            setValue ctxb.parsedArguments d.longName (normalize d.args vals) } :=
    hblind vals _ _ (by simpa using hcmd) (by simp)
  rw [hcb]
  cases hres : d.callback vals
      { ctxb with parsedArguments :=
          setValue ctxb.parsedArguments d.longName (normalize d.args vals) } <;>
    simp [hres, hcmd]

lemma processArgument_cons_congr (d : ParsedArgument) (a b : String) (rest : List String)
    (i : Int) (hi : 0 ≤ i) (ctx ctxb : ParsedContext)
    (hcmd : ctx.command = ctxb.command)
    (hpa : ctx.parsedArguments = ctxb.parsedArguments)
    (hblind : ObservesOnlyParsed d.callback) :
    (processArgument d (a :: rest) i ctx).1 = (processArgument d (b :: rest) i ctxb).1 ∧
    (processArgument d (a :: rest) i ctx).2.1.parsedArguments =
      (processArgument d (b :: rest) i ctxb).2.1.parsedArguments ∧
    (processArgument d (a :: rest) i ctx).2.1.command =
      (processArgument d (b :: rest) i ctxb).2.1.command ∧
    (processArgument d (a :: rest) i ctx).2.2 = (processArgument d (b :: rest) i ctxb).2.2 := by
  rw [processArgument, processArgument, procCollect_cons d a b rest (i + 1) (by omega)]
  cases hc : procCollect d (b :: rest) (i + 1) with
  | error e =>
    obtain ⟨x, y⟩ := e
    simp only [hc]
    exact ⟨trivial, hpa, hcmd, trivial⟩
  | ok p =>
    obtain ⟨vs, n'⟩ := p
    simp only [hc]
    exact procFinish_congr d vs n' ctx ctxb hcmd hpa hblind

lemma parseLoop_cons_congr (sh : Shellish) (a b : String) (rest : List String)
    (d : ParsedArgument)
    (hane : a ≠ "") (hbne : b ≠ "")
    (hra : resolveToken sh a = .dispatch d) (hrb : resolveToken sh b = .dispatch d)
    (hblindall : ∀ l' d', (l', d') ∈ sh.arguments → ObservesOnlyParsed d'.callback) :
    ∀ (fuel : Nat) (i : Int) (ctx ctxb : ParsedContext) (tr : List Event),
      ctx.command = ctxb.command →
      ctx.parsedArguments = ctxb.parsedArguments →
      obs (parseLoop sh (a :: rest) fuel i ctx tr) =
        obs (parseLoop sh (b :: rest) fuel i ctxb tr) := by
  intro fuel
  induction fuel with
  | zero => intro i ctx ctxb tr hcmd hpa; rfl
  | succ fuel ih =>
    intro i ctx ctxb tr hcmd hpa
    have hlen : ((a :: rest).length : Int) = ((b :: rest).length : Int) := by simp
    by_cases hlt : i < ((a :: rest).length : Int)
    case neg =>
      rw [parseLoop_completed sh (a :: rest) fuel i ctx tr hlt,
        parseLoop_completed sh (b :: rest) fuel i ctxb tr (by rw [← hlen]; exact hlt)]
      simp [obs, hpa]
    case pos =>
      have hltb : i < ((b :: rest).length : Int) := by rw [← hlen]; exact hlt
      by_cases hi0 : i = 0
      · subst hi0
        rw [parseLoop_dispatch sh (a :: rest) fuel 0 ctx tr a d (getTok_cons_zero a rest)
            hane hra,
          parseLoop_dispatch sh (b :: rest) fuel 0 ctxb tr b d (getTok_cons_zero b rest)
            hbne hrb]
        have hbd : ObservesOnlyParsed d.callback := by
          obtain ⟨l₀, hm⟩ := resolveToken_dispatch_mem sh a d hra
          exact hblindall l₀ d hm
        obtain ⟨h1, h2, hc2, h3⟩ :=
          processArgument_cons_congr d a b rest 0 (by norm_num) ctx ctxb hcmd hpa hbd
        rcases hqa : processArgument d (a :: rest) 0 ctx with ⟨r, ctx', evs⟩
        rcases hqb : processArgument d (b :: rest) 0 ctxb with ⟨rb, ctxb', evsb⟩
        rw [hqa, hqb] at h1 h2 hc2 h3
        dsimp only at h1 h2 hc2 h3
        simp only [hqa, hqb]
        obtain rfl : r = rb := h1
        obtain rfl : evs = evsb := h3
        by_cases hs : r.success = true
        · rw [if_pos hs, if_pos hs]
          exact ih r.nextIndex ctx' ctxb' (tr ++ evs) hc2 h2
        · rw [if_neg hs, if_neg hs]
          simp [obs, h2]
      · have htok : getTok (a :: rest) i = getTok (b :: rest) i :=
          getTok_cons_ne_zero a b rest i hi0
        cases hg : getTok (b :: rest) i with
        | none =>
          rw [parseLoop_skip_none sh (a :: rest) fuel i ctx tr hlt (by rw [htok]; exact hg),
            parseLoop_skip_none sh (b :: rest) fuel i ctxb tr hltb hg]
          exact ih (i + 1) ctx ctxb tr hcmd hpa
        | some t =>
          by_cases hte : t = ""
          · subst hte
            rw [parseLoop_skip_empty sh (a :: rest) fuel i ctx tr hlt (by rw [htok]; exact hg),
              parseLoop_skip_empty sh (b :: rest) fuel i ctxb tr hltb hg]
            exact ih (i + 1) ctx ctxb tr hcmd hpa
          · cases hres : resolveToken sh t with
            | skip =>
              rw [parseLoop_skip_bare sh (a :: rest) fuel i ctx tr t hlt
                  (by rw [htok]; exact hg) hte hres,
                parseLoop_skip_bare sh (b :: rest) fuel i ctxb tr t hltb hg hte hres]
              exact ih (i + 1) ctx ctxb tr hcmd hpa
            | unknown =>
              rw [parseLoop_unknown sh (a :: rest) fuel i ctx tr t
                  (by rw [htok]; exact hg) hte hres,
                parseLoop_unknown sh (b :: rest) fuel i ctxb tr t hg hte hres]
              simp [obs, hpa]
            | internalErr l =>
              rw [parseLoop_internal sh (a :: rest) fuel i ctx tr t l
                  (by rw [htok]; exact hg) hte hres,
                parseLoop_internal sh (b :: rest) fuel i ctxb tr t l hg hte hres]
              simp [obs, hpa]
            | dispatch d' =>
              rw [parseLoop_dispatch sh (a :: rest) fuel i ctx tr t d'
                  (by rw [htok]; exact hg) hte hres,
                parseLoop_dispatch sh (b :: rest) fuel i ctxb tr t d' hg hte hres]
              have hi : 0 ≤ i := (getTok_some_bounds _ i t hg).1
              have hbd' : ObservesOnlyParsed d'.callback := by
                obtain ⟨l₀, hm⟩ := resolveToken_dispatch_mem sh t d' hres
                exact hblindall l₀ d' hm
              obtain ⟨h1, h2, hc2, h3⟩ :=
                processArgument_cons_congr d' a b rest i hi ctx ctxb hcmd hpa hbd'
              rcases hqa : processArgument d' (a :: rest) i ctx with ⟨r, ctx', evs⟩
              rcases hqb : processArgument d' (b :: rest) i ctxb with ⟨rb, ctxb', evsb⟩
              rw [hqa, hqb] at h1 h2 hc2 h3
              dsimp only at h1 h2 hc2 h3
              simp only [hqa, hqb]
              obtain rfl : r = rb := h1
              obtain rfl : evs = evsb := h3
              by_cases hs : r.success = true
              · rw [if_pos hs, if_pos hs]
                exact ih r.nextIndex ctx' ctxb' (tr ++ evs) hc2 h2
              · rw [if_neg hs, if_neg hs]
                simp [obs, h2]

lemma parse_obs_congr (sh : Shellish) (args args' : List String)
    (hobs : obs (parseLoop sh args (args.length + 1) 0 (initCtx sh args) []) =
      obs (parseLoop sh args' (args'.length + 1) 0 (initCtx sh args') [])) :
    parse sh args = parse sh args' := by
  rw [parse, parse]
  cases hw : parseLoop sh args (args.length + 1) 0 (initCtx sh args) [] with
  | none =>
    rw [hw] at hobs
    cases hw' : parseLoop sh args' (args'.length + 1) 0 (initCtx sh args') [] with
    | none => rfl
    | some w' =>
      rw [hw'] at hobs
      cases w' <;> simp [obs] at hobs
  | some w =>
    rw [hw] at hobs
    cases hw' : parseLoop sh args' (args'.length + 1) 0 (initCtx sh args') [] with
    | none =>
      rw [hw'] at hobs
      cases w <;> simp [obs] at hobs
    | some w' =>
      rw [hw'] at hobs
      cases w with
      | failed r c t =>
        cases w' with
        | failed r' c' t' =>
          simp only [obs, Prod.mk.injEq, Option.some.injEq] at hobs
          obtain ⟨h1, h2, h3⟩ := hobs
          simp only [h1, h2, h3]
        | completed c' t' => simp [obs] at hobs
      | completed c t =>
        cases w' with
        | failed r' c' t' => simp [obs] at hobs
        | completed c' t' =>
          simp only [obs, Prod.mk.injEq, Option.some.injEq] at hobs
          obtain ⟨_, h2, h3⟩ := hobs
          simp only [h2, h3]

lemma mkString_data (s : String) : String.mk s.data = s := by
  obtain ⟨cs⟩ := s
  rfl

lemma data_nonempty_of_ne_empty (s : String) (h : s ≠ "") : s.data ≠ [] := by
  intro hd
  exact h (String.ext (by simp [hd]))

/-- C7 (corrected): the amended claim.  When short name `s` — non-empty and
not itself dash-prefixed — is registered as the alias of long name `l`, `l`
resolves to definition `d`, and every registered callback observes the
context only through `command` and `parsedArguments` (not through the raw
token vector `allArgs`/`remainingArgs`, which necessarily differs between the
two runs), parsing `["-s"] ++ rest` produces exactly the same result,
parsed-arguments map and callback-invocation trace as parsing
`["--l"] ++ rest`. -/
theorem claim_c7_short_long_equiv (sh : Shellish) (s l : String) (d : ParsedArgument)
    (rest : List String)
    (hs : List.lookup s sh.shortNameMap = some l)
    (hl : List.lookup l sh.arguments = some d)
    (hne : s ≠ "") (hdash : strStartsWith s "-" = false)
    (hblindall : ∀ l' d', (l', d') ∈ sh.arguments → ObservesOnlyParsed d'.callback) :
    parse sh (("-" ++ s) :: rest) = parse sh (("--" ++ l) :: rest) := by
  have hdata : ("-" ++ s).data = '-' :: s.data := by simp
  have hldata : ("--" ++ l).data = '-' :: '-' :: l.data := by simp
  have h1 : strStartsWith ("-" ++ s) "--" = strStartsWith s "-" := by
    rw [strStartsWith, strStartsWith, hdata]
    rw [show ("--" : String).data = ['-', '-'] from rfl,
      show ("-" : String).data = ['-'] from rfl]
    simp [List.isPrefixOf]
  have h2 : strStartsWith ("-" ++ s) "-" = true := by
    rw [strStartsWith, hdata, show ("-" : String).data = ['-'] from rfl]
    simp [List.isPrefixOf]
  have h3 : 1 < strLen ("-" ++ s) := by
    rw [strLen, hdata]
    have := data_nonempty_of_ne_empty s hne
    cases hsd : s.data with
    | nil => exact absurd hsd this
    | cons c cs => simp [hsd]
  have h4 : strDrop ("-" ++ s) 1 = s := by
    rw [strDrop, hdata]
    simp [mkString_data]
  have h5 : strStartsWith ("--" ++ l) "--" = true := by
    rw [strStartsWith, hldata, show ("--" : String).data = ['-', '-'] from rfl]
    simp [List.isPrefixOf]
  have h6 : strDrop ("--" ++ l) 2 = l := by
    rw [strDrop, hldata]
    simp [mkString_data]
  have hresa : resolveToken sh ("-" ++ s) = .dispatch d := by
    rw [resolveToken, if_neg (by rw [h1, hdash]; simp), if_pos ⟨h2, h3⟩, h4]
    simp only [hs, hl]
  have hresb : resolveToken sh ("--" ++ l) = .dispatch d := by
    rw [resolveToken, if_pos h5, h6]
    simp only [hl]
  have hane : ("-" ++ s) ≠ "" := by
    intro he
    have hd0 : '-' :: s.data = [] := by rw [← hdata, he]
    exact List.noConfusion hd0
  have hbne : ("--" ++ l) ≠ "" := by
    intro he
    have hd0 : '-' :: '-' :: l.data = [] := by rw [← hldata, he]
    exact List.noConfusion hd0
  apply parse_obs_congr
  simp only [List.length_cons]
  exact parseLoop_cons_congr sh ("-" ++ s) ("--" ++ l) rest d hane hbne hresa hresb hblindall
    (rest.length + 1 + 1) 0 (initCtx sh (("-" ++ s) :: rest))
    (initCtx sh (("--" ++ l) :: rest)) [] rfl rfl

/-- A definition whose registered short name itself starts with a dash. -/
def fooDef : ParsedArgument := ⟨"foo", some "-x", "dash alias", 0, false, none, cbOk⟩

def fooOpts : ArgumentOptions :=
  ⟨"foo", some "-x", "dash alias", some 0, some false, none, cbOk⟩

def shX : Shellish := ⟨optsW, [("foo", fooDef)], [("-x", "foo")]⟩

/-- A callback that inspects `context.allArgs` — permitted by the source,
whose callbacks receive the whole context (and the repository's own test
suite reads `context.allArgs` inside a callback). -/
def spyCb : List String → ParsedContext → Except String Unit :=
  fun _ ctx => if ctx.allArgs = ["-s"] then .error "saw short form" else .ok ()

def spyDef : ParsedArgument := ⟨"spy", some "s", "reads allArgs", 0, false, none, spyCb⟩

def spyOpts : ArgumentOptions :=
  ⟨"spy", some "s", "reads allArgs", some 0, some false, none, spyCb⟩

def shSpy : Shellish := ⟨optsW, [("spy", spyDef)], [("s", "spy")]⟩

/-- C7 counterexample to the original claim, which quantifies over *every*
registry — every registered short name and every consumer callback.  Two
independent violations, both reachable through `addArgument`:
(1) the short name `-x` for long name `foo` is accepted, but the token
`"-(-x)" = "--x"` is classified as a long form, so parsing it fails with
`UnknownArgument` while `["--foo"]` succeeds; and
(2) with the perfectly ordinary short name `s`, a callback that reads
`context.allArgs` (which the source passes to every callback) makes
`["-s"]` fail while `["--spy"]` succeeds, so even dash-free aliases do not
behave identically for context-observing callbacks. -/
theorem claim_c7_counterexample :
    addArgument ⟨optsW, [], []⟩ fooOpts = (shX, none) ∧
    List.lookup "-x" shX.shortNameMap = some "foo" ∧
    ("-" ++ "-x") = "--x" ∧
    parse shX ["--x"] = some (⟨false, some "Unknown argument: --x", none⟩, [], []) ∧
    parse shX ["--foo"] =
      some (⟨true, none, none⟩, [("foo", .bool true)], [("foo", [])]) ∧
    addArgument ⟨optsW, [], []⟩ spyOpts = (shSpy, none) ∧
    List.lookup "s" shSpy.shortNameMap = some "spy" ∧
    parse shSpy ["-s"] =
      some (⟨false, some "Error executing callback for --spy: saw short form", none⟩,
        [("spy", .bool true)], [("spy", [])]) ∧
    parse shSpy ["--spy"] =
      some (⟨true, none, none⟩, [("spy", .bool true)], [("spy", [])]) :=
  ⟨rfl, rfl, rfl, rfl, rfl, rfl, rfl, rfl, rfl⟩

/-- C7 witness: on the concrete registry, whose callbacks ignore the context,
`-v` behaves identically to `--verbose`, and both produce the expected
observable outcome. -/
theorem claim_c7_witness :
    parse shW ["-v"] = parse shW ["--verbose"] ∧
    parse shW ["--verbose"] =
      some (⟨true, none, none⟩, [("verbose", .bool true)], [("verbose", [])]) :=
  ⟨claim_c7_short_long_equiv shW "v" "verbose" verboseDef [] rfl rfl (by decide) (by decide)
    (by
      intro l' d' hm
      simp only [shW, List.mem_cons, Prod.ext_iff, List.not_mem_nil, or_false] at hm
      rcases hm with ⟨_, rfl⟩ | ⟨_, rfl⟩ | ⟨_, rfl⟩ | ⟨_, rfl⟩ <;>
        exact fun vals c₁ c₂ _ _ => rfl),
   rfl⟩

end CLI
